import Mathlib

set_option maxRecDepth 4000

/-!
Verification development for the vio83-ai-orchestra data plane.

Shallow embeddings of the Python source under `backend/rag/`:

* `backend/rag/advanced_compression.py` — the `Compressor` frame format,
  CRC32 model, `compress` / `decompress`;
* `backend/rag/knowledge_distiller.py` — `EmbeddingQuantizer` and
  `DistilledKnowledgeDB.distill_batch_metadata`;
* `backend/rag/run_harvest.py` — the per-batch counter updates of
  `ProductionHarvester.harvest_openalex`;
* `backend/rag/knowledge_base.py` — `classify_domain` and
  `KnowledgeBase._rerank`;
* `backend/rag/preprocessing.py` — `LanguageDetector.detect` and
  `SemanticChunker.chunk`;
* `backend/rag/distributed_engine.py` — `Pipeline.add_stage`,
  `Pipeline._topological_sort`, and the `map` of the local pools.

Bytes are modelled as natural numbers below 256, Python `float`
arithmetic as exact rational/real arithmetic, and Python strings as
Lean strings (lists of characters).  External compression libraries
(zlib, lz4, zstandard, bz2, lzma) are modelled as abstract codecs.
-/

/-! # Part 1 — CRC32 (zlib.crc32, IEEE polynomial, reflected algorithm)

`zlib.crc32` is the standard reflected CRC-32: the register starts at
`0xFFFFFFFF`; each input byte is xor-ed into the low bits and the
register is shifted eight times through the reflected polynomial
`0xEDB88320`; the final value is the register xor `0xFFFFFFFF`. -/

/-- One shift round of the reflected CRC-32: shift right, conditionally
xor with the reflected IEEE polynomial `0xEDB88320`. -/
def crcRound (c : Nat) : Nat :=
  if c % 2 = 1 then (c / 2) ^^^ 0xEDB88320 else c / 2

/-- Eight shift rounds: one input byte's worth of CRC-32 shifting. -/
def crcRound8 (c : Nat) : Nat :=
  crcRound (crcRound (crcRound (crcRound (crcRound (crcRound (crcRound (crcRound c)))))))

/-- Absorb one byte into the CRC-32 register. -/
def crcUpdate (c b : Nat) : Nat :=
  crcRound8 (c ^^^ b)

/-- `zlib.crc32(bs) & 0xFFFFFFFF` over a byte list. -/
def crc32 (bs : List Nat) : Nat :=
  (bs.foldl crcUpdate 0xFFFFFFFF) ^^^ 0xFFFFFFFF

theorem crcRound_lt {c : Nat} (h : c < 2 ^ 32) : crcRound c < 2 ^ 32 := by
  unfold crcRound
  split
  · exact Nat.xor_lt_two_pow (by omega) (by norm_num)
  · omega

theorem crcRound8_lt {c : Nat} (h : c < 2 ^ 32) : crcRound8 c < 2 ^ 32 := by
  unfold crcRound8
  exact crcRound_lt (crcRound_lt (crcRound_lt (crcRound_lt
    (crcRound_lt (crcRound_lt (crcRound_lt (crcRound_lt h)))))))

theorem crcUpdate_lt {c b : Nat} (hc : c < 2 ^ 32) (hb : b < 256) :
    crcUpdate c b < 2 ^ 32 := by
  unfold crcUpdate
  exact crcRound8_lt (Nat.xor_lt_two_pow hc (by omega))

/-- A value whose bit 31 is clear is strictly below `2^31`; xor with the
polynomial (whose bit 31 is set) therefore flips it above `2^31`. -/
theorem xor_poly_ge {x : Nat} (h : x < 2 ^ 31) : 2 ^ 31 ≤ x ^^^ 0xEDB88320 := by
  by_contra hc
  push_neg at hc
  have h1 : (x ^^^ 0xEDB88320).testBit 31 = false := Nat.testBit_lt_two_pow hc
  have h2 : Nat.testBit x 31 = false := Nat.testBit_lt_two_pow h
  have h3 : Nat.testBit 0xEDB88320 31 = true := by decide
  rw [Nat.testBit_xor, h2, h3] at h1
  simp at h1

theorem crcRound_inj {a b : Nat} (ha : a < 2 ^ 32) (hb : b < 2 ^ 32)
    (h : crcRound a = crcRound b) : a = b := by
  unfold crcRound at h
  by_cases pa : a % 2 = 1 <;> by_cases pb : b % 2 = 1 <;> simp [pa, pb] at h
  · have : (a / 2 ^^^ 0xEDB88320) ^^^ 0xEDB88320 = (b / 2 ^^^ 0xEDB88320) ^^^ 0xEDB88320 := by
      rw [h]
    rw [Nat.xor_cancel_right, Nat.xor_cancel_right] at this
    omega
  · -- a odd, b even: the left value has bit 31 set, the right does not
    have hge : 2 ^ 31 ≤ a / 2 ^^^ 0xEDB88320 := xor_poly_ge (by omega)
    omega
  · have hge : 2 ^ 31 ≤ b / 2 ^^^ 0xEDB88320 := xor_poly_ge (by omega)
    omega
  · omega

theorem crcRound8_inj {a b : Nat} (ha : a < 2 ^ 32) (hb : b < 2 ^ 32)
    (h : crcRound8 a = crcRound8 b) : a = b := by
  unfold crcRound8 at h
  have l1 := crcRound_lt (c := a)
  exact crcRound_inj ha hb (crcRound_inj (crcRound_lt ha) (crcRound_lt hb)
    (crcRound_inj (crcRound_lt (crcRound_lt ha)) (crcRound_lt (crcRound_lt hb))
      (crcRound_inj (crcRound_lt (crcRound_lt (crcRound_lt ha)))
        (crcRound_lt (crcRound_lt (crcRound_lt hb)))
        (crcRound_inj (crcRound_lt (crcRound_lt (crcRound_lt (crcRound_lt ha))))
          (crcRound_lt (crcRound_lt (crcRound_lt (crcRound_lt hb))))
          (crcRound_inj
            (crcRound_lt (crcRound_lt (crcRound_lt (crcRound_lt (crcRound_lt ha)))))
            (crcRound_lt (crcRound_lt (crcRound_lt (crcRound_lt (crcRound_lt hb)))))
            (crcRound_inj
              (crcRound_lt (crcRound_lt (crcRound_lt (crcRound_lt (crcRound_lt (crcRound_lt ha))))))
              (crcRound_lt (crcRound_lt (crcRound_lt (crcRound_lt (crcRound_lt (crcRound_lt hb))))))
              (crcRound_inj
                (crcRound_lt (crcRound_lt (crcRound_lt (crcRound_lt (crcRound_lt (crcRound_lt (crcRound_lt ha)))))))
                (crcRound_lt (crcRound_lt (crcRound_lt (crcRound_lt (crcRound_lt (crcRound_lt (crcRound_lt hb)))))))
                h)))))))

theorem crcUpdate_inj_left {c1 c2 b : Nat} (h1 : c1 < 2 ^ 32) (h2 : c2 < 2 ^ 32)
    (hb : b < 256) (hne : c1 ≠ c2) : crcUpdate c1 b ≠ crcUpdate c2 b := by
  intro h
  apply hne
  have := crcRound8_inj (Nat.xor_lt_two_pow h1 (by omega))
    (Nat.xor_lt_two_pow h2 (by omega)) h
  have h' : (c1 ^^^ b) ^^^ b = (c2 ^^^ b) ^^^ b := by rw [this]
  rwa [Nat.xor_cancel_right, Nat.xor_cancel_right] at h'

theorem crcUpdate_inj_byte {c b1 b2 : Nat} (hc : c < 2 ^ 32) (h1 : b1 < 256)
    (h2 : b2 < 256) (hne : b1 ≠ b2) : crcUpdate c b1 ≠ crcUpdate c b2 := by
  intro h
  apply hne
  have := crcRound8_inj (Nat.xor_lt_two_pow hc (by omega))
    (Nat.xor_lt_two_pow hc (by omega)) h
  have h' : c ^^^ (c ^^^ b1) = c ^^^ (c ^^^ b2) := by rw [this]
  rwa [Nat.xor_cancel_left, Nat.xor_cancel_left] at h'

theorem crcFoldl_lt {bs : List Nat} (hb : ∀ b ∈ bs, b < 256) :
    ∀ {c : Nat}, c < 2 ^ 32 → bs.foldl crcUpdate c < 2 ^ 32 := by
  induction bs with
  | nil => intro c hc; simpa using hc
  | cons a t ih =>
    intro c hc
    simp only [List.foldl_cons]
    exact ih (fun b h => hb b (List.mem_cons_of_mem a h))
      (crcUpdate_lt hc (hb a (List.mem_cons_self a t)))

theorem crcFoldl_inj {bs : List Nat} (hb : ∀ b ∈ bs, b < 256) :
    ∀ {c1 c2 : Nat}, c1 < 2 ^ 32 → c2 < 2 ^ 32 → c1 ≠ c2 →
      bs.foldl crcUpdate c1 ≠ bs.foldl crcUpdate c2 := by
  induction bs with
  | nil => intro c1 c2 _ _ hne; simpa using hne
  | cons a t ih =>
    intro c1 c2 h1 h2 hne
    simp only [List.foldl_cons]
    have ha : a < 256 := hb a (List.mem_cons_self a t)
    exact ih (fun b h => hb b (List.mem_cons_of_mem a h))
      (crcUpdate_lt h1 ha) (crcUpdate_lt h2 ha) (crcUpdate_inj_left h1 h2 ha hne)

theorem crcFoldl_set_ne {x : List Nat} (hx : ∀ b ∈ x, b < 256) :
    ∀ {i b c : Nat}, c < 2 ^ 32 → i < x.length → b < 256 → b ≠ x.getD i 0 →
      (x.set i b).foldl crcUpdate c ≠ x.foldl crcUpdate c := by
  induction x with
  | nil => intro i b c _ hi; simp at hi
  | cons a t ih =>
    intro i b c hc hi hb hne
    cases i with
    | zero =>
      simp only [List.set_cons_zero, List.foldl_cons]
      simp only [List.getD_cons_zero] at hne
      exact crcFoldl_inj (fun d hd => hx d (List.mem_cons_of_mem a hd))
        (crcUpdate_lt hc hb)
        (crcUpdate_lt hc (hx a (List.mem_cons_self a t)))
        (crcUpdate_inj_byte hc hb (hx a (List.mem_cons_self a t)) hne)
    | succ j =>
      simp only [List.set_cons_succ, List.foldl_cons]
      simp only [List.getD_cons_succ] at hne
      exact ih (fun d hd => hx d (List.mem_cons_of_mem a hd))
        (crcUpdate_lt hc (hx a (List.mem_cons_self a t))) (by simpa using hi) hb hne

/-- CRC-32 detects every single-byte substitution: mutating one byte of a
byte string changes its `crc32`. -/
theorem crc32_set_ne {x : List Nat} (hx : ∀ b ∈ x, b < 256) {i : Nat} {b : Nat}
    (hi : i < x.length) (hb : b < 256) (hne : b ≠ x.getD i 0) :
    crc32 (x.set i b) ≠ crc32 x := by
  intro h
  unfold crc32 at h
  have hfold : (x.set i b).foldl crcUpdate 0xFFFFFFFF = x.foldl crcUpdate 0xFFFFFFFF := by
    have h' := congrArg (· ^^^ 0xFFFFFFFF) h
    simpa [Nat.xor_cancel_right] using h'
  exact crcFoldl_set_ne hx (by norm_num) hi hb hne hfold

/-! # Part 2 — Compressor frame format (`advanced_compression.py`)

`Compressor.compress` frames the payload behind a 12-byte header:
4 magic bytes naming the algorithm, the original size as a little-endian
`u32` (truncated), and `crc32` of the original bytes as a little-endian
`u32`.  `Compressor.decompress` re-reads the magic, inflates the payload
with the corresponding library and verifies the CRC.  The external
libraries are abstracted as `Codec`s; `level` is threaded through. -/

/-- The algorithms of `CompressionAlgo` in `advanced_compression.py`. -/
inductive CompressionAlgo where
  | none | zlib | lz4 | zstd | bz2 | lzma | auto
deriving DecidableEq, Repr

/-- `_MAGIC`: the 4-byte magic of each algorithm.  `AUTO` never reaches
`_pack_header`; `_MAGIC.get` would fall back to the `NONE` magic. -/
def magicBytes : CompressionAlgo → List Nat
  | .zlib => [0x56, 0x5A, 0x30, 0x31]  -- "VZ01"
  | .lz4  => [0x56, 0x4C, 0x30, 0x31]  -- "VL01"
  | .zstd => [0x56, 0x53, 0x30, 0x31]  -- "VS01"
  | .bz2  => [0x56, 0x42, 0x30, 0x31]  -- "VB01"
  | .lzma => [0x56, 0x58, 0x30, 0x31]  -- "VX01"
  | _     => [0x56, 0x4E, 0x30, 0x31]  -- "VN01"

/-- `_MAGIC_REVERSE.get(magic, CompressionAlgo.NONE)`: unknown magic
bytes are read back as the `NONE` algorithm. -/
def magicReverse (bs : List Nat) : CompressionAlgo :=
  if bs = magicBytes .zlib then .zlib
  else if bs = magicBytes .lz4 then .lz4
  else if bs = magicBytes .zstd then .zstd
  else if bs = magicBytes .bz2 then .bz2
  else if bs = magicBytes .lzma then .lzma
  else .none

/-- Little-endian `u32` encoding used by `struct.pack("4sII", ...)`. -/
def u32le (n : Nat) : List Nat :=
  [n % 256, n / 256 % 256, n / 65536 % 256, n / 16777216 % 256]

/-- Little-endian `u32` decoding used by `struct.unpack("4sII", ...)`. -/
def u32leDecode (bs : List Nat) : Nat :=
  bs.getD 0 0 + 256 * bs.getD 1 0 + 65536 * bs.getD 2 0 + 16777216 * bs.getD 3 0

/-- `Compressor._pack_header`: magic, truncated original size, masked CRC. -/
def packHeader (algo : CompressionAlgo) (originalSize crc : Nat) : List Nat :=
  magicBytes algo ++ u32le (min originalSize 0xFFFFFFFF) ++ u32le (crc % 2 ^ 32)

/-- An external compression library: a (level-indexed) deflate function
and an inflate function that may fail on invalid input. -/
structure Codec where
  comp : Int → List Nat → List Nat
  decomp : List Nat → Option (List Nat)

/-- `Compressor._resolve_algo`: `AUTO` picks zstd when available else
zlib; lz4/zstd fall back to zlib when their library is missing. -/
def resolveAlgo (hasLz4 hasZstd : Bool) : CompressionAlgo → CompressionAlgo
  | .auto => if hasZstd then .zstd else .zlib
  | .lz4 => if hasLz4 then .lz4 else .zlib
  | .zstd => if hasZstd then .zstd else .zlib
  | a => a

/-- The compressed payload computed inside `Compressor.compress` before
the size comparison (for `NONE` the payload is the data itself). -/
def rawCompressed (codecs : CompressionAlgo → Codec) (hasLz4 hasZstd : Bool)
    (algo : CompressionAlgo) (level : Int) (data : List Nat) : List Nat :=
  match resolveAlgo hasLz4 hasZstd algo with
  | .none => data
  | a => (codecs a).comp level data

/-- `Compressor.compress`: empty data gets an empty `NONE` frame; if the
compressed payload is not smaller than the input the frame is written
with the `NONE` magic and the raw bytes; otherwise with the algorithm's
magic and the compressed payload. -/
def Compressor.compress (codecs : CompressionAlgo → Codec) (hasLz4 hasZstd : Bool)
    (algo : CompressionAlgo) (level : Int) (data : List Nat) : List Nat :=
  if data = [] then packHeader .none 0 0
  else
    let a := resolveAlgo hasLz4 hasZstd algo
    let crc := crc32 data
    let compressed := rawCompressed codecs hasLz4 hasZstd algo level data
    if data.length ≤ compressed.length then
      packHeader .none data.length crc ++ data
    else
      packHeader a data.length crc ++ compressed

/-- Failure modes of `Compressor.decompress`: a missing native library
(`ImportError`), a payload the library rejects, or a CRC mismatch
(`ValueError` in the source). -/
inductive DecompressError where
  | missingLib | corruptPayload | crcMismatch
deriving DecidableEq, Repr

/-- The per-algorithm branch of `Compressor.decompress`: the `NONE`
branch returns the payload verbatim; lz4/zstd raise `ImportError` when
the library is missing; the libraries themselves may reject a payload. -/
def decompressPayload (codecs : CompressionAlgo → Codec) (hasLz4 hasZstd : Bool) :
    CompressionAlgo → List Nat → Except DecompressError (List Nat)
  | .none, payload => .ok payload
  | .lz4, payload =>
    if hasLz4 then
      match (codecs .lz4).decomp payload with
      | some r => .ok r
      | Option.none => .error .corruptPayload
    else .error .missingLib
  | .zstd, payload =>
    if hasZstd then
      match (codecs .zstd).decomp payload with
      | some r => .ok r
      | Option.none => .error .corruptPayload
    else .error .missingLib
  | a, payload =>
    match (codecs a).decomp payload with
    | some r => .ok r
    | Option.none => .error .corruptPayload

/-- `Compressor.decompress`: buffers shorter than the 12-byte header are
returned as-is; otherwise the branch is selected by magic, the payload
inflated, and the CRC of the result compared against the stored CRC —
but only when the stored CRC is non-zero. -/
def Compressor.decompress (codecs : CompressionAlgo → Codec) (hasLz4 hasZstd : Bool)
    (data : List Nat) : Except DecompressError (List Nat) :=
  if data.length < 12 then .ok data
  else
    let algo := magicReverse (data.take 4)
    let storedCrc := u32leDecode ((data.drop 8).take 4)
    let payload := data.drop 12
    match decompressPayload codecs hasLz4 hasZstd algo payload with
    | .error e => .error e
    | .ok result =>
      if storedCrc ≠ 0 ∧ crc32 result ≠ storedCrc then .error .crcMismatch
      else .ok result

theorem u32le_decode (n : Nat) (h : n < 2 ^ 32) : u32leDecode (u32le n) = n := by
  show n % 256 + 256 * (n / 256 % 256) + 65536 * (n / 65536 % 256) +
    16777216 * (n / 16777216 % 256) = n
  omega

theorem crc32_lt {bs : List Nat} (hb : ∀ b ∈ bs, b < 256) : crc32 bs < 2 ^ 32 := by
  unfold crc32
  exact Nat.xor_lt_two_pow (crcFoldl_lt hb (by norm_num)) (by norm_num)

theorem packHeader_length (algo : CompressionAlgo) (s c : Nat) :
    (packHeader algo s c).length = 12 := by
  cases algo <;> rfl

theorem magicBytes_length (algo : CompressionAlgo) : (magicBytes algo).length = 4 := by
  cases algo <;> rfl

theorem magicReverse_magicBytes {a : CompressionAlgo} (h : a ≠ .auto) :
    magicReverse (magicBytes a) = a := by
  cases a <;> first | rfl | exact absurd rfl h

theorem resolveAlgo_ne_auto (hasLz4 hasZstd : Bool) (algo : CompressionAlgo) :
    resolveAlgo hasLz4 hasZstd algo ≠ .auto := by
  cases algo <;> simp only [resolveAlgo] <;> (try split) <;> simp

theorem resolveAlgo_lz4 {hasLz4 hasZstd : Bool} {algo : CompressionAlgo}
    (h : resolveAlgo hasLz4 hasZstd algo = .lz4) : hasLz4 = true := by
  cases algo <;> simp only [resolveAlgo] at h <;> (try split at h) <;> simp_all

theorem resolveAlgo_zstd {hasLz4 hasZstd : Bool} {algo : CompressionAlgo}
    (h : resolveAlgo hasLz4 hasZstd algo = .zstd) : hasZstd = true := by
  cases algo <;> simp only [resolveAlgo] at h <;> (try split at h) <;> simp_all

theorem headerFrame_take4 (algo : CompressionAlgo) (s c : Nat) (p : List Nat) :
    ((packHeader algo s c ++ p).take 4) = magicBytes algo := by
  cases algo <;> rfl

theorem headerFrame_drop12 (algo : CompressionAlgo) (s c : Nat) (p : List Nat) :
    ((packHeader algo s c ++ p).drop 12) = p := by
  cases algo <;> rfl

theorem headerFrame_crcField (algo : CompressionAlgo) (s c : Nat) (p : List Nat) :
    (((packHeader algo s c ++ p).drop 8).take 4) = u32le (c % 2 ^ 32) := by
  cases algo <;> rfl

theorem headerFrame_length (algo : CompressionAlgo) (s c : Nat) (p : List Nat) :
    (packHeader algo s c ++ p).length = 12 + p.length := by
  rw [List.length_append, packHeader_length]

/-- Evaluating `Compressor.decompress` on a well-formed frame: the magic
selects the branch and the stored CRC is the masked CRC word. -/
theorem decompress_frame_eq (codecs : CompressionAlgo → Codec) (hasLz4 hasZstd : Bool)
    {a : CompressionAlgo} (ha : a ≠ .auto) (sz c : Nat) (p : List Nat) :
    Compressor.decompress codecs hasLz4 hasZstd (packHeader a sz c ++ p)
      = match decompressPayload codecs hasLz4 hasZstd a p with
        | .error e => .error e
        | .ok result =>
          if c % 2 ^ 32 ≠ 0 ∧ crc32 result ≠ c % 2 ^ 32 then .error .crcMismatch
          else .ok result := by
  unfold Compressor.decompress
  rw [if_neg (by rw [headerFrame_length]; omega)]
  rw [headerFrame_take4, magicReverse_magicBytes ha, headerFrame_crcField,
    headerFrame_drop12, u32le_decode _ (Nat.mod_lt _ (by norm_num))]

/-- When the algorithm was resolved against the availability flags, the
payload branch of `decompress` inverts the codec's `comp`. -/
theorem decompressPayload_comp (codecs : CompressionAlgo → Codec) {hasLz4 hasZstd : Bool}
    {a : CompressionAlgo} (level : Int) (x : List Nat)
    (hcodec : ∀ a' l y, (codecs a').decomp ((codecs a').comp l y) = some y)
    (h4a : a = .lz4 → hasLz4 = true) (hza : a = .zstd → hasZstd = true)
    (ha : a ≠ .none) (ha' : a ≠ .auto) :
    decompressPayload codecs hasLz4 hasZstd a ((codecs a).comp level x) = .ok x := by
  cases a with
  | none => exact absurd rfl ha
  | lz4 => simp [decompressPayload, h4a rfl, hcodec]
  | zstd => simp [decompressPayload, hza rfl, hcodec]
  | zlib => simp [decompressPayload, hcodec]
  | bz2 => simp [decompressPayload, hcodec]
  | lzma => simp [decompressPayload, hcodec]
  | auto => exact absurd rfl ha'

/-- C1.  For every input byte string `x`, every algorithm and every
level, `decompress (compress x algo level) = x` (given that each
underlying library inverts its own compression); and whenever the
compressed payload is not smaller than `x`, `compress` returns a frame
whose 4-byte magic is `VN01` and whose payload is `x` verbatim. -/
theorem C1_compress_decompress_roundtrip
    (codecs : CompressionAlgo → Codec) (hasLz4 hasZstd : Bool)
    (algo : CompressionAlgo) (level : Int) (x : List Nat)
    (hbytes : ∀ b ∈ x, b < 256)
    (hcodec : ∀ a' l y, (codecs a').decomp ((codecs a').comp l y) = some y) :
    Compressor.decompress codecs hasLz4 hasZstd
        (Compressor.compress codecs hasLz4 hasZstd algo level x) = .ok x
    ∧ (x ≠ [] →
        x.length ≤ (rawCompressed codecs hasLz4 hasZstd algo level x).length →
        (Compressor.compress codecs hasLz4 hasZstd algo level x).take 4 = magicBytes .none
        ∧ (Compressor.compress codecs hasLz4 hasZstd algo level x).drop 12 = x) := by
  have hcrcx : crc32 x < 2 ^ 32 := crc32_lt hbytes
  have hmod : crc32 x % 2 ^ 32 = crc32 x := Nat.mod_eq_of_lt hcrcx
  by_cases hx : x = []
  · subst hx
    refine ⟨?_, fun h _ => absurd rfl h⟩
    rfl
  · have hcomp :
        Compressor.compress codecs hasLz4 hasZstd algo level x
          = if x.length ≤ (rawCompressed codecs hasLz4 hasZstd algo level x).length then
              packHeader .none x.length (crc32 x) ++ x
            else
              packHeader (resolveAlgo hasLz4 hasZstd algo) x.length (crc32 x)
                ++ rawCompressed codecs hasLz4 hasZstd algo level x := by
      unfold Compressor.compress
      rw [if_neg hx]
    constructor
    · rw [hcomp]
      by_cases hlen : x.length ≤ (rawCompressed codecs hasLz4 hasZstd algo level x).length
      · rw [if_pos hlen, decompress_frame_eq codecs hasLz4 hasZstd (by simp) _ _ _]
        simp only [decompressPayload, hmod]
        split
        · simp_all
        · rfl
      · rw [if_neg hlen]
        have hne : resolveAlgo hasLz4 hasZstd algo ≠ .none := by
          intro h
          apply hlen
          unfold rawCompressed
          rw [h]
        have hraw : rawCompressed codecs hasLz4 hasZstd algo level x
            = (codecs (resolveAlgo hasLz4 hasZstd algo)).comp level x := by
          unfold rawCompressed
          cases h : resolveAlgo hasLz4 hasZstd algo <;> simp_all
        rw [decompress_frame_eq codecs hasLz4 hasZstd (resolveAlgo_ne_auto _ _ _) _ _ _, hraw,
          decompressPayload_comp codecs level x hcodec
            (fun h => resolveAlgo_lz4 h) (fun h => resolveAlgo_zstd h)
            hne (resolveAlgo_ne_auto _ _ _)]
        simp only [hmod]
        split
        · simp_all
        · rfl
    · intro _ hlen
      rw [hcomp, if_pos hlen]
      exact ⟨headerFrame_take4 _ _ _ _, headerFrame_drop12 _ _ _ _⟩

/-- A trivial concrete codec family (identity deflate): used to
instantiate the abstract library parameters in closed statements. -/
def idCodecs : CompressionAlgo → Codec :=
  fun _ => { comp := fun _ y => y, decomp := fun y => some y }

/-- Witness for C1 at a concrete input. -/
theorem C1_compress_decompress_roundtrip_witness :
    Compressor.decompress idCodecs true true
        (Compressor.compress idCodecs true true .zstd 3 [104, 105]) = .ok [104, 105]
    ∧ (Compressor.compress idCodecs true true .zstd 3 [104, 105]).take 4
        = magicBytes .none :=
  have h := C1_compress_decompress_roundtrip idCodecs true true .zstd 3 [104, 105]
    (by decide) (fun _ _ _ => rfl)
  ⟨h.1, (h.2 (by decide) (by decide)).1⟩

/-- C2 (amended).  Every frame produced by `compress` stores `crc32 x`
at header bytes 8..11.  For a raw (`VN01`) frame whose stored CRC is
non-zero, any single-byte mutation of the payload makes `decompress`
fail with a CRC mismatch.  (The claim's unrestricted mutation statement
is false: `decompress` skips verification when the stored CRC is zero,
see the counterexample; compressed-payload branches additionally depend
on the external library's behaviour on corrupted input.) -/
theorem C2_crc_stored_and_mutation_detected
    (codecs : CompressionAlgo → Codec) (hasLz4 hasZstd : Bool) :
    (∀ (algo : CompressionAlgo) (level : Int) (x : List Nat), (∀ b ∈ x, b < 256) →
      ((Compressor.compress codecs hasLz4 hasZstd algo level x).drop 8).take 4
        = u32le (crc32 x))
    ∧ (∀ (sz : Nat) (x : List Nat) (i b : Nat), (∀ c ∈ x, c < 256) →
        crc32 x ≠ 0 → i < x.length → b < 256 → b ≠ x.getD i 0 →
        Compressor.decompress codecs hasLz4 hasZstd
          (packHeader .none sz (crc32 x) ++ x.set i b) = .error .crcMismatch) := by
  constructor
  · intro algo level x hbytes
    have hmod : crc32 x % 2 ^ 32 = crc32 x := Nat.mod_eq_of_lt (crc32_lt hbytes)
    by_cases hx : x = []
    · subst hx
      show ((packHeader .none 0 0).drop 8).take 4 = u32le (crc32 [])
      decide
    · have hcomp :
          Compressor.compress codecs hasLz4 hasZstd algo level x
            = if x.length ≤ (rawCompressed codecs hasLz4 hasZstd algo level x).length then
                packHeader .none x.length (crc32 x) ++ x
              else
                packHeader (resolveAlgo hasLz4 hasZstd algo) x.length (crc32 x)
                  ++ rawCompressed codecs hasLz4 hasZstd algo level x := by
        unfold Compressor.compress
        rw [if_neg hx]
      rw [hcomp]
      split
      · rw [headerFrame_crcField, hmod]
      · rw [headerFrame_crcField, hmod]
  · intro sz x i b hbytes hcrc hi hb hne
    have hmod : crc32 x % 2 ^ 32 = crc32 x := Nat.mod_eq_of_lt (crc32_lt hbytes)
    rw [decompress_frame_eq codecs hasLz4 hasZstd (by simp) _ _ _]
    simp only [decompressPayload, hmod]
    rw [if_pos ⟨hcrc, crc32_set_ne hbytes hi hb hne⟩]

/-- Witness for C2 at concrete inputs (`crc32 [104, 105] = 0xD8932AAC`). -/
theorem C2_crc_stored_and_mutation_detected_witness :
    ((Compressor.compress idCodecs true true .zlib 6 [104, 105]).drop 8).take 4
      = u32le (crc32 [104, 105])
    ∧ Compressor.decompress idCodecs true true
        (packHeader .none 2 (crc32 [104, 105]) ++ [104, 105].set 0 0)
      = .error .crcMismatch :=
  have h := C2_crc_stored_and_mutation_detected idCodecs true true
  ⟨h.1 .zlib 6 [104, 105] (by decide),
   h.2 2 [104, 105] 0 0 (by decide) (by decide) (by decide) (by decide) (by decide)⟩

/-- C2 counterexample.  The byte string `x = [157, 10, 217, 109]` has
`crc32 x = 0`; `compress` frames it raw with a stored CRC of 0, and
`decompress` then accepts a single-byte mutation of the payload
(returning the mutated bytes) instead of failing. -/
theorem C2_mutation_counterexample :
    Compressor.compress idCodecs true true .none 6 [157, 10, 217, 109]
      = packHeader .none 4 0 ++ [157, 10, 217, 109]
    ∧ Compressor.decompress idCodecs true true
        (packHeader .none 4 0 ++ [158, 10, 217, 109]) = .ok [158, 10, 217, 109]
    ∧ [158, 10, 217, 109] ≠ [157, 10, 217, 109] :=
  ⟨rfl, rfl, by decide⟩

/-! # Part 3 — Distillation store and harvest counters
(`knowledge_distiller.py`, `run_harvest.py`)

`DistilledKnowledgeDB.distill_batch_metadata` bulk-inserts L1 metadata
rows with `INSERT OR IGNORE` keyed on the `doc_id` primary key, inserts
a matching FTS row (the FTS5 virtual table has no uniqueness
constraint, so that insert always appends), and increments its returned
counter once per record of the batch — whether or not the row was new.
The MD5-prefix id synthesis for records without a `doc_id` is
abstracted as a `hash` function parameter. -/

/-- `Level1_Metadata` of `knowledge_distiller.py` (the persisted L1
fields; the float reliability score is modelled as a rational). -/
structure Level1_Metadata where
  doc_id : String
  titolo : String
  autore : String
  anno : Int
  lingua : String
  categoria : String
  sotto_disciplina : String
  fonte_tipo : String
  isbn : String
  doi : String
  issn : String
  editore : String
  parole_chiave : String
  affidabilita : ℚ
  peer_reviewed : Bool
  fonte_origine : String
  url_fonte : String
deriving DecidableEq, Repr

/-- A row of the `distilled_fts` FTS5 table as written by
`distill_batch_metadata` (abstract and key-concepts columns empty). -/
structure FtsRow where
  doc_id : String
  titolo : String
  autore : String
  parole_chiave : String
  abstractCol : String
  concetti_chiave : String
  categoria : String
deriving DecidableEq, Repr

/-- The tables of `knowledge_distilled.db` touched or counted by the
claims: `l1_metadata` rows, `distilled_fts` rows, and the documents of
the other four level tables (which `distill_batch_metadata` never
touches). -/
structure DistilledDB where
  l1_metadata : List Level1_Metadata
  distilled_fts : List FtsRow
  l2_embeddings : List String
  l3_summaries : List String
  l4_knowledge_graph : List String
  l5_fulltext : List String
deriving Repr

/-- `if not m.doc_id: m.doc_id = md5(f"{titolo}:{autore}:{anno}")[:16]`,
with the MD5 prefix abstracted as `hash`. -/
def fillDocId (hash : String → String) (m : Level1_Metadata) : Level1_Metadata :=
  if m.doc_id = "" then
    { m with doc_id := hash (m.titolo ++ ":" ++ m.autore ++ ":" ++ toString m.anno) }
  else m

/-- `INSERT OR IGNORE INTO l1_metadata`: the `doc_id` primary key makes
a duplicate insert a no-op. -/
def l1InsertOrIgnore (rows : List Level1_Metadata) (m : Level1_Metadata) :
    List Level1_Metadata :=
  if rows.any (fun r => r.doc_id = m.doc_id) then rows else rows ++ [m]

/-- `INSERT OR IGNORE INTO distilled_fts`: FTS5 virtual tables have no
unique constraint, so the row is always appended. -/
def ftsInsert (rows : List FtsRow) (m : Level1_Metadata) : List FtsRow :=
  rows ++ [{ doc_id := m.doc_id, titolo := m.titolo, autore := m.autore,
             parole_chiave := m.parole_chiave, abstractCol := "",
             concetti_chiave := "", categoria := m.categoria }]

/-- One iteration of the `for m in batch` loop of
`distill_batch_metadata`: fill the id, insert-or-ignore into L1, append
the FTS row, `count += 1`. -/
def distillStep (hash : String → String) (acc : DistilledDB × Nat)
    (m0 : Level1_Metadata) : DistilledDB × Nat :=
  let m := fillDocId hash m0
  ({ acc.1 with
      l1_metadata := l1InsertOrIgnore acc.1.l1_metadata m,
      distilled_fts := ftsInsert acc.1.distilled_fts m },
   acc.2 + 1)

/-- `DistilledKnowledgeDB.distill_batch_metadata`: one transaction over
the batch; returns the database and the counter, which is incremented
once per record regardless of whether the L1 insert was ignored. -/
def distill_batch_metadata (hash : String → String) (db : DistilledDB)
    (batch : List Level1_Metadata) : DistilledDB × Nat :=
  batch.foldl (distillStep hash) (db, 0)

/-- The five per-level counts reported by `DistilledKnowledgeDB.stats`
(one `SELECT COUNT` over each level table). -/
def DistilledDB.statsCounts (db : DistilledDB) : Nat × Nat × Nat × Nat × Nat :=
  (db.l1_metadata.length, db.l2_embeddings.length, db.l3_summaries.length,
   db.l4_knowledge_graph.length, db.l5_fulltext.length)

/-- The harvest progress counters of `HarvestProgress`
(`harvest_state.py`) used by the orchestrator loop. -/
structure HarvestProgress where
  source : String
  cursor : String
  total_fetched : Nat
  total_inserted : Nat
  total_errors : Nat
  target : Nat
  status : String
deriving Repr

/-- The per-batch success path of `ProductionHarvester.harvest_openalex`
(run_harvest.py lines 175-183): bulk-insert the batch, add the batch
size to `total_fetched`, add the value returned by
`distill_batch_metadata` to `total_inserted`, store the next cursor. -/
def harvestStep (hash : String → String) (st : DistilledDB × HarvestProgress)
    (batch : List Level1_Metadata) (nextCursor : String) :
    DistilledDB × HarvestProgress :=
  let r := distill_batch_metadata hash st.1 batch
  (r.1,
   { st.2 with
      total_fetched := st.2.total_fetched + batch.length,
      total_inserted := st.2.total_inserted + r.2,
      cursor := nextCursor })

/-- A harvest run: the successful batches of the loop in order (loop
exit conditions do not alter the per-batch counter arithmetic). -/
def harvestRun (hash : String → String) (st : DistilledDB × HarvestProgress)
    (pages : List (List Level1_Metadata × String)) : DistilledDB × HarvestProgress :=
  pages.foldl (fun s p => harvestStep hash s p.1 p.2) st

theorem distillFoldl_count (hash : String → String) (batch : List Level1_Metadata) :
    ∀ (d : DistilledDB) (n : Nat),
      (batch.foldl (distillStep hash) (d, n)).2 = n + batch.length := by
  induction batch with
  | nil => intro d n; simp
  | cons m t ih =>
    intro d n
    simp only [List.foldl_cons, List.length_cons]
    rw [distillStep, ih]
    omega

/-- The counter returned by `distill_batch_metadata` is the batch
length, whether or not any row was actually new. -/
theorem distill_batch_metadata_count (hash : String → String) (db : DistilledDB)
    (batch : List Level1_Metadata) :
    (distill_batch_metadata hash db batch).2 = batch.length := by
  unfold distill_batch_metadata
  rw [distillFoldl_count]
  omega

theorem l1Insert_self_present (rows : List Level1_Metadata) (m : Level1_Metadata) :
    (l1InsertOrIgnore rows m).any (fun r => r.doc_id = m.doc_id) = true := by
  unfold l1InsertOrIgnore
  split
  · assumption
  · simp

theorem l1Insert_mono {rows : List Level1_Metadata} {p : Level1_Metadata → Bool}
    (m : Level1_Metadata) (h : rows.any p = true) :
    (l1InsertOrIgnore rows m).any p = true := by
  unfold l1InsertOrIgnore
  split
  · exact h
  · simp only [List.any_append, h, Bool.true_or]

theorem l1Insert_of_present {rows : List Level1_Metadata} {m : Level1_Metadata}
    (h : rows.any (fun r => r.doc_id = m.doc_id) = true) :
    l1InsertOrIgnore rows m = rows := by
  unfold l1InsertOrIgnore
  rw [if_pos h]

/-- `distill_batch_metadata` never touches the L2..L5 tables. -/
theorem distillFoldl_levels (hash : String → String) (batch : List Level1_Metadata) :
    ∀ (acc : DistilledDB × Nat),
      ((batch.foldl (distillStep hash) acc).1.l2_embeddings = acc.1.l2_embeddings
      ∧ (batch.foldl (distillStep hash) acc).1.l3_summaries = acc.1.l3_summaries
      ∧ (batch.foldl (distillStep hash) acc).1.l4_knowledge_graph = acc.1.l4_knowledge_graph
      ∧ (batch.foldl (distillStep hash) acc).1.l5_fulltext = acc.1.l5_fulltext) := by
  induction batch with
  | nil => intro acc; exact ⟨rfl, rfl, rfl, rfl⟩
  | cons m t ih =>
    intro acc
    simp only [List.foldl_cons]
    exact ih (distillStep hash acc m)

/-- After the batch is processed, every record's (filled) doc id is
present in the L1 table. -/
theorem distillFoldl_present (hash : String → String) (batch : List Level1_Metadata) :
    ∀ (acc : DistilledDB × Nat) (m0 : Level1_Metadata), m0 ∈ batch →
      ((batch.foldl (distillStep hash) acc).1.l1_metadata).any
        (fun r => r.doc_id = (fillDocId hash m0).doc_id) = true := by
  have hmono : ∀ (t : List Level1_Metadata) (acc : DistilledDB × Nat)
      (p : Level1_Metadata → Bool), acc.1.l1_metadata.any p = true →
      ((t.foldl (distillStep hash) acc).1.l1_metadata).any p = true := by
    intro t
    induction t with
    | nil => intro acc p h; exact h
    | cons m t' ih =>
      intro acc p h
      simp only [List.foldl_cons]
      exact ih _ p (l1Insert_mono _ h)
  induction batch with
  | nil => intro _ _ h; simp at h
  | cons m t ih =>
    intro acc m0 hm
    rcases List.mem_cons.mp hm with h | h
    · subst h
      simp only [List.foldl_cons]
      exact hmono t _ _ (l1Insert_self_present _ _)
    · simp only [List.foldl_cons]
      exact ih _ m0 h

/-- Re-running the batch against a store that already holds all of its
doc ids leaves the L1 table unchanged. -/
theorem distillFoldl_l1_stable (hash : String → String) (batch : List Level1_Metadata) :
    ∀ (acc : DistilledDB × Nat),
      (∀ m0 ∈ batch, acc.1.l1_metadata.any
        (fun r => r.doc_id = (fillDocId hash m0).doc_id) = true) →
      (batch.foldl (distillStep hash) acc).1.l1_metadata = acc.1.l1_metadata := by
  induction batch with
  | nil => intro acc _; rfl
  | cons m t ih =>
    intro acc hall
    simp only [List.foldl_cons]
    have hm := hall m (List.mem_cons_self m t)
    have hl1 : (distillStep hash acc m).1.l1_metadata = acc.1.l1_metadata := by
      show l1InsertOrIgnore acc.1.l1_metadata (fillDocId hash m) = acc.1.l1_metadata
      exact l1Insert_of_present hm
    rw [ih (distillStep hash acc m)
      (fun m0 hm0 => by rw [hl1]; exact hall m0 (List.mem_cons_of_mem m hm0))]
    exact hl1

/-- C6.  `distill_batch_metadata` is idempotent on `doc_id`: running the
same batch a second time leaves the per-level document counts reported
by `stats` over `l1_metadata` and the other level tables unchanged (the
second pass does not change the L1 table at all, and the L2..L5 tables
are never touched). -/
theorem C6_distill_batch_metadata_idempotent (hash : String → String)
    (db : DistilledDB) (batch : List Level1_Metadata) :
    ((distill_batch_metadata hash (distill_batch_metadata hash db batch).1 batch).1.statsCounts
      = (distill_batch_metadata hash db batch).1.statsCounts)
    ∧ ((distill_batch_metadata hash (distill_batch_metadata hash db batch).1 batch).1.l1_metadata
      = (distill_batch_metadata hash db batch).1.l1_metadata) := by
  have hl1 : (distill_batch_metadata hash (distill_batch_metadata hash db batch).1 batch).1.l1_metadata
      = (distill_batch_metadata hash db batch).1.l1_metadata := by
    unfold distill_batch_metadata
    exact distillFoldl_l1_stable hash batch _
      (fun m0 hm0 => distillFoldl_present hash batch (db, 0) m0 hm0)
  refine ⟨?_, hl1⟩
  have h2 := distillFoldl_levels hash batch
    ((distill_batch_metadata hash db batch).1, 0)
  unfold DistilledDB.statsCounts
  rw [hl1]
  unfold distill_batch_metadata at h2 ⊢
  rw [h2.1, h2.2.1, h2.2.2.1, h2.2.2.2]

theorem harvestRun_invariant (hash : String → String)
    (pages : List (List Level1_Metadata × String)) :
    ∀ (st : DistilledDB × HarvestProgress),
      st.2.total_inserted ≤ st.2.total_fetched →
      (harvestRun hash st pages).2.total_inserted
        ≤ (harvestRun hash st pages).2.total_fetched := by
  induction pages with
  | nil => intro st h; exact h
  | cons p t ih =>
    intro st h
    show (harvestRun hash (harvestStep hash st p.1 p.2) t).2.total_inserted ≤ _
    apply ih
    show st.2.total_inserted + (distill_batch_metadata hash st.1 p.1).2
      ≤ st.2.total_fetched + p.1.length
    rw [distill_batch_metadata_count]
    omega

/-- C3 (amended).  After every successful batch the orchestrator adds
the batch size to `total_fetched` and the value returned by
`distill_batch_metadata` — which is the batch size, duplicates included,
not the number of newly inserted rows — to `total_inserted`; the
invariant `total_inserted ≤ total_fetched` is preserved throughout a
run that starts in a state satisfying it. -/
theorem C3_harvest_counters (hash : String → String) (db : DistilledDB)
    (prog : HarvestProgress) (batch : List Level1_Metadata) (cur : String) :
    ((harvestStep hash (db, prog) batch cur).2.total_fetched
        = prog.total_fetched + batch.length)
    ∧ ((harvestStep hash (db, prog) batch cur).2.total_inserted
        = prog.total_inserted + batch.length)
    ∧ (∀ pages : List (List Level1_Metadata × String),
        prog.total_inserted ≤ prog.total_fetched →
        (harvestRun hash (db, prog) pages).2.total_inserted
          ≤ (harvestRun hash (db, prog) pages).2.total_fetched) := by
  refine ⟨rfl, ?_, fun pages h => harvestRun_invariant hash pages (db, prog) h⟩
  show prog.total_inserted + (distill_batch_metadata hash db batch).2 = _
  rw [distill_batch_metadata_count]

/-- Identity stand-in for the MD5-prefix id synthesis, for closed
statements (ids in the examples are always pre-filled anyway). -/
def idHash : String → String := fun s => s

/-- A concrete L1 record used in closed statements. -/
def mRecD : Level1_Metadata :=
  { doc_id := "d0000000000000001", titolo := "Quantum fields", autore := "Rossi",
    anno := 2020, lingua := "en", categoria := "fisica", sotto_disciplina := "",
    fonte_tipo := "article", isbn := "", doi := "", issn := "", editore := "",
    parole_chiave := "quantum", affidabilita := 9/10, peer_reviewed := true,
    fonte_origine := "openalex", url_fonte := "" }

/-- Witness for C3 at a concrete state. -/
theorem C3_harvest_counters_witness :
    ((harvestStep idHash
        (⟨[], [], [], [], [], []⟩, ⟨"openalex", "*", 0, 0, 0, 600, "running"⟩)
        [mRecD] "cur2").2.total_fetched = 1)
    ∧ ((harvestStep idHash
        (⟨[], [], [], [], [], []⟩, ⟨"openalex", "*", 0, 0, 0, 600, "running"⟩)
        [mRecD] "cur2").2.total_inserted = 1)
    ∧ ((harvestRun idHash
        (⟨[], [], [], [], [], []⟩, ⟨"openalex", "*", 0, 0, 0, 600, "running"⟩)
        [([mRecD], "cur2")]).2.total_inserted
      ≤ (harvestRun idHash
        (⟨[], [], [], [], [], []⟩, ⟨"openalex", "*", 0, 0, 0, 600, "running"⟩)
        [([mRecD], "cur2")]).2.total_fetched) :=
  have h := C3_harvest_counters idHash ⟨[], [], [], [], [], []⟩
    ⟨"openalex", "*", 0, 0, 0, 600, "running"⟩ [mRecD] "cur2"
  ⟨h.1, h.2.1, h.2.2 [([mRecD], "cur2")] (by decide)⟩

/-- C3 counterexample.  Re-fetching a record whose doc id is already in
the store inserts zero new rows (the L1 table length is unchanged), yet
`total_inserted` still increases by the batch size: it does not count
"the actual number of newly inserted rows as deduplicated by doc_id". -/
theorem C3_duplicate_counterexample :
    ((distill_batch_metadata idHash ⟨[mRecD], [], [], [], [], []⟩ [mRecD]).1.l1_metadata.length
      = 1)
    ∧ ((harvestStep idHash
        (⟨[mRecD], [], [], [], [], []⟩, ⟨"openalex", "*", 1, 1, 0, 600, "running"⟩)
        [mRecD] "cur2").2.total_inserted = 2) := by
  constructor
  · decide
  · decide

/-! # Part 4 — Embedding quantizer (`knowledge_distiller.py`)

`EmbeddingQuantizer.quantize` computes the L2 norm, short-circuits a
zero norm to all-zero bytes, and otherwise normalizes each component,
clamps to [-1, 1], multiplies by 127 and casts with Python `int()`
(truncation toward zero).  Python float arithmetic is modelled as exact
arithmetic: inputs are rationals, the norm is the real square root, and
the truncated result `int(clamp(x/‖v‖)·127)` is computed exactly over ℚ
as `sign x · min 127 ⌊√(127²·x²/S)⌋` where `S` is the squared norm
(`⌊√r⌋ = Nat.sqrt ⌊r⌋` for rational `r ≥ 0`). -/

/-- `sum(v * v for v in vector)`: the squared L2 norm. -/
def normSq (v : List ℚ) : ℚ :=
  (v.map (fun x => x * x)).sum

/-- `int(min(1, |x|/√S) * 127)` computed exactly over the rationals:
the clamped truncated magnitude is the largest `k ≤ 127` with
`k ≤ 127·|x|/√S`, i.e. with `k²·S ≤ 127²·x²`, found by bounded scan
(`k = 0` always qualifies, hence the `- 1`). -/
def quantMag (S x : ℚ) : ℤ :=
  (((List.range 128).filter (fun k => (k : ℚ) * k * S ≤ 16129 * x ^ 2)).length : ℤ) - 1

/-- `int(max(-1.0, min(1.0, x / √S)) * 127)`: Python `int()` truncates
toward zero, so the negative case is the negated magnitude. -/
def quantComponent (S x : ℚ) : ℤ :=
  if 0 ≤ x then quantMag S x else -(quantMag S x)

/-- The int8 byte vector of `EmbeddingQuantizer.quantize` (first
component of the returned pair). -/
def quantizeBytes (v : List ℚ) : List ℤ :=
  if v = [] then []
  else if normSq v = 0 then List.replicate v.length 0
  else v.map (quantComponent (normSq v))

/-- The norm of `EmbeddingQuantizer.quantize` (second component of the
returned pair): `sum(v*v) ** 0.5`, i.e. the real square root of the
squared norm; the empty and zero-norm branches return `0.0`.  Python's
float square root is modelled as the exact real square root. -/
noncomputable def quantizeNorm (v : List ℚ) : ℝ :=
  if v = [] then 0 else Real.sqrt ((normSq v : ℚ) : ℝ)

/-- `sum(x * y for x, y in zip(va, vb))`. -/
def dotInt (a b : List ℤ) : ℤ :=
  (List.zipWith (fun x y => x * y) a b).sum

/-- `sum(x * x for x in va)`: the squared int8 norm. -/
def normSqInt (a : List ℤ) : ℤ :=
  (a.map (fun x => x * x)).sum

/-- `EmbeddingQuantizer.cosine_similarity_int8`: zero for empty or
differing-length inputs, zero when either norm is zero (the Python code
compares the float square roots against 0, and `√S = 0 ↔ S = 0`),
otherwise `dot / (‖a‖·‖b‖)` in exact real arithmetic. -/
noncomputable def cosine_similarity_int8 (a b : List ℤ) : ℝ :=
  if a = [] ∨ b = [] ∨ a.length ≠ b.length then 0
  else if normSqInt a = 0 ∨ normSqInt b = 0 then 0
  else (dotInt a b : ℝ) /
    (Real.sqrt ((normSqInt a : ℤ) : ℝ) * Real.sqrt ((normSqInt b : ℤ) : ℝ))

/-- The vector of scenario S2: `[1.0, 0.0, -1.0] + [0.5] * 381`. -/
def vS2 : List ℚ :=
  [1, 0, -1] ++ List.replicate 381 (1/2)

theorem dotInt_self (a : List ℤ) : dotInt a a = normSqInt a := by
  unfold dotInt normSqInt
  induction a with
  | nil => rfl
  | cons x t ih => simp only [List.zipWith_cons_cons, List.map_cons, List.sum_cons, ih]

theorem normSqInt_nonneg (a : List ℤ) : 0 ≤ normSqInt a := by
  unfold normSqInt
  induction a with
  | nil => simp
  | cons x t ih =>
    simp only [List.map_cons, List.sum_cons]
    have := mul_self_nonneg x
    omega

/-- Cosine of a non-degenerate int8 vector with itself is exactly 1. -/
theorem cosine_int8_self {a : List ℤ} (ha : a ≠ []) (hpos : 0 < normSqInt a) :
    cosine_similarity_int8 a a = 1 := by
  unfold cosine_similarity_int8
  rw [if_neg (by simp [ha]), if_neg (by omega), dotInt_self]
  have hS : (0 : ℝ) < ((normSqInt a : ℤ) : ℝ) := by exact_mod_cast hpos
  rw [Real.mul_self_sqrt (le_of_lt hS)]
  exact div_self (ne_of_gt hS)

unseal Rat.mul Rat.inv Rat.add Rat.sub in
theorem normSq_vS2 : normSq vS2 = 389 / 4 := by
  unfold normSq vS2
  rw [List.map_append, List.sum_append, List.map_replicate, List.sum_replicate]
  norm_num [smul_eq_mul]

unseal Rat.mul Rat.inv Rat.add Rat.sub in
theorem quantizeBytes_vS2 : quantizeBytes vS2 = [12, 0, -12] ++ List.replicate 381 6 := by
  unfold quantizeBytes
  rw [if_neg (by decide), if_neg (by rw [normSq_vS2]; norm_num), normSq_vS2]
  show List.map (quantComponent (389/4)) ([1, 0, -1] ++ List.replicate 381 (1/2))
    = [12, 0, -12] ++ List.replicate 381 6
  rw [List.map_append, List.map_replicate]
  rw [show quantComponent (389/4) ((1 : ℚ)/2) = 6 from by decide]
  rw [show List.map (quantComponent (389/4)) [1, 0, -1] = [12, 0, -12] from by decide]

theorem normSqInt_quantized_vS2 : normSqInt (quantizeBytes vS2) = 14004 := by
  rw [quantizeBytes_vS2]
  unfold normSqInt
  rw [List.map_append, List.sum_append, List.map_replicate, List.sum_replicate]
  norm_num

/-- C7 counterexample.  For `v = [1.0, 0.0, -1.0] + [0.5]*381` the code
normalizes by `‖v‖ = √97.25 ≈ 9.86` before scaling, so the first three
quantized bytes are `12, 0, -12` — not `127, 0, -127` as claimed. -/
theorem C7_quantize_counterexample :
    (quantizeBytes vS2).take 3 = [12, 0, -12]
    ∧ ([12, 0, -12] : List ℤ) ≠ [127, 0, -127] := by
  constructor
  · rw [quantizeBytes_vS2]
    rfl
  · decide

/-- C7 (amended).  `quantize` maps a zero-norm vector to all-zero bytes
with norm 0; otherwise it normalizes by the L2 norm, clamps to [-1, 1],
multiplies by 127 and truncates, so for `v = [1.0, 0.0, -1.0] +
[0.5]*381` the bytes start `12, 0, -12` (not `127, 0, -127`: the
components are divided by `‖v‖ = √97.25` first); the returned norm is
the L2 norm of `v` (`norm² = 97.25`), and `cosine_int8(q(v), q(v))`
lies in [0.99, 1] (it is exactly 1); `cosine_int8` returns 0 for
differing lengths or zero norms. -/
theorem C7_quantizer_amended :
    (∀ v : List ℚ, normSq v = 0 →
      quantizeBytes v = List.replicate v.length 0 ∧ quantizeNorm v = 0)
    ∧ (quantizeBytes vS2).take 3 = [12, 0, -12]
    ∧ ((quantizeNorm vS2) ^ 2 = 389 / 4 ∧ 0 ≤ quantizeNorm vS2)
    ∧ cosine_similarity_int8 (quantizeBytes vS2) (quantizeBytes vS2) ∈ Set.Icc (0.99 : ℝ) 1
    ∧ (∀ a b : List ℤ, a.length ≠ b.length ∨ normSqInt a = 0 ∨ normSqInt b = 0 →
        cosine_similarity_int8 a b = 0) := by
  have hnorm : quantizeNorm vS2 = Real.sqrt ((389 / 4 : ℚ) : ℝ) := by
    unfold quantizeNorm
    rw [if_neg (by decide), normSq_vS2]
  refine ⟨?_, ?_, ⟨?_, ?_⟩, ?_, ?_⟩
  · intro v h
    by_cases hv : v = []
    · subst hv
      exact ⟨rfl, by unfold quantizeNorm; rw [if_pos rfl]⟩
    · constructor
      · unfold quantizeBytes
        rw [if_neg hv, if_pos h]
      · unfold quantizeNorm
        rw [if_neg hv, h]
        push_cast
        exact Real.sqrt_zero
  · rw [quantizeBytes_vS2]
    rfl
  · rw [hnorm, sq, Real.mul_self_sqrt (by positivity)]
    push_cast
    norm_num
  · rw [hnorm]
    exact Real.sqrt_nonneg _
  · have hne : quantizeBytes vS2 ≠ [] := by
      rw [quantizeBytes_vS2]
      simp
    have hpos : 0 < normSqInt (quantizeBytes vS2) := by
      rw [normSqInt_quantized_vS2]
      norm_num
    rw [cosine_int8_self hne hpos]
    constructor
    · norm_num
    · norm_num
  · intro a b h
    unfold cosine_similarity_int8
    by_cases h1 : a = [] ∨ b = [] ∨ a.length ≠ b.length
    · rw [if_pos h1]
    · rw [if_neg h1]
      push_neg at h1
      rcases h with h | h | h
      · exact absurd h1.2.2 h
      · rw [if_pos (Or.inl h)]
      · rw [if_pos (Or.inr h)]

/-- Witness for C7 at concrete inputs. -/
theorem C7_quantizer_amended_witness :
    (quantizeBytes [0, 0] = List.replicate 2 0 ∧ quantizeNorm [0, 0] = 0)
    ∧ cosine_similarity_int8 [1] [1, 2] = 0 :=
  have h := C7_quantizer_amended
  ⟨h.1 [0, 0] (by norm_num [normSq]),
   h.2.2.2.2 [1] [1, 2] (by norm_num)⟩

/-! # Part 5 — Domain classification and hybrid rerank
(`knowledge_base.py`)

`classify_domain` scores each domain by the number of its keywords that
occur as substrings of the lowercased text (the tokenized word set is
computed but unused by the scoring), keeps positive scores as
`count / len(keywords)`, sorts them descending (Python `sorted` is
stable) and keeps the top 5.  `KnowledgeBase._rerank` classifies the
query, re-scores every merged row with the fixed linear blend and sorts
descending by `final_score` (Python `list.sort` is stable; a stable
descending sort is modelled by stable insertion). -/

/-- `DOMAIN_KEYWORDS` of `knowledge_base.py` (insertion order). -/
def DOMAIN_KEYWORDS : List (String × List String) := [
  ("matematica", ["algebra", "calcolo", "teorema", "dimostrazione", "integrale", "derivata", "equazione", "matrice", "vettore", "topologia", "gruppo", "anello", "campo", "funzione", "limite", "convergenza", "serie", "probabilità", "statistica"]),
  ("fisica", ["forza", "energia", "quantistica", "relatività", "onda", "particella", "campo", "termodinamica", "entropia", "momento", "impulso", "spin", "bosone", "fermione", "gravitazione", "elettromagnetismo", "meccanica", "ottica", "acustica"]),
  ("chimica", ["molecola", "atomo", "reazione", "legame", "orbitale", "catalisi", "pH", "ossidazione", "riduzione", "polimero", "enzima", "solvente", "cristallo", "spettroscopia", "cromatografia", "stechiometria"]),
  ("biologia", ["cellula", "DNA", "RNA", "proteina", "gene", "mutazione", "evoluzione", "specie", "ecosistema", "fotosintesi", "mitosi", "meiosi", "genoma", "metabolismo", "enzima", "organismo", "tessuto", "organo"]),
  ("medicina", ["diagnosi", "terapia", "farmaco", "sintomo", "patologia", "chirurgia", "anamnesi", "prognosi", "eziologia", "epidemiologia", "dosaggio", "controindicazione", "effetto collaterale", "screening", "biopsia"]),
  ("informatica", ["algoritmo", "complessità", "database", "rete", "protocollo", "compilatore", "thread", "stack", "heap", "hash", "cache", "API", "framework", "container", "crittografia", "machine learning", "neurale", "deep learning"]),
  ("diritto", ["articolo", "comma", "decreto", "legge", "codice", "giurisprudenza", "sentenza", "tribunale", "reato", "sanzione", "contratto", "responsabilità", "procedura", "costituzione", "diritto", "norma", "regolamento"]),
  ("economia", ["PIL", "inflazione", "mercato", "domanda", "offerta", "capitale", "interesse", "investimento", "bilancio", "fiscale", "monetaria", "microeconomia", "macroeconomia", "econometria", "finanza", "rendimento"]),
  ("storia", ["secolo", "epoca", "dinastia", "impero", "guerra", "rivoluzione", "trattato", "monarchia", "repubblica", "colonia", "feudalesimo", "rinascimento", "illuminismo", "industrializzazione", "civilizzazione"]),
  ("filosofia", ["ontologia", "epistemologia", "etica", "metafisica", "fenomenologia", "dialettica", "ermeneutica", "esistenzialismo", "pragmatismo", "logica", "sillogismo", "a priori", "a posteriori", "trascendentale"]),
  ("linguistica", ["fonema", "morfema", "sintassi", "semantica", "pragmatica", "lessema", "fonetica", "fonologia", "morfologia", "coniugazione", "declinazione", "etimologia", "sociolinguistica", "psicolinguistica"]),
  ("astronomia", ["stella", "pianeta", "galassia", "nebulosa", "supernova", "buco nero", "pulsar", "quasar", "redshift", "magnitudine", "parsec", "anno luce", "cosmologia", "esopianeta", "asteroide", "cometa"]),
  ("psicologia", ["cognizione", "comportamento", "percezione", "memoria", "apprendimento", "motivazione", "emozione", "personalità", "disturbo", "terapia", "inconscio", "condizionamento", "rinforzo", "attaccamento"])
]
/-- Python `str.lower()` (ASCII case folding; the keyword tables contain
no upper-case accented characters). -/
def lowerStr (s : String) : String :=
  String.mk (s.data.map Char.toLower)

/-- List-of-characters prefix test. -/
def isPrefixCh : List Char → List Char → Bool
  | [], _ => true
  | _ :: _, [] => false
  | a :: as, b :: bs => a = b && isPrefixCh as bs

/-- Python's substring operator `needle in hay` over character lists. -/
def containsCh (needle : List Char) : List Char → Bool
  | [] => isPrefixCh needle []
  | c :: rest => isPrefixCh needle (c :: rest) || containsCh needle rest

/-- Python `kw in text` on strings. -/
def strContains (t kw : String) : Bool :=
  containsCh kw.data t.data

/-- Stable insert for a descending sort: the element goes after every
already-placed element whose key is not smaller. -/
def insertByDesc {α : Type} (key : α → ℚ) (x : α) : List α → List α
  | [] => [x]
  | y :: ys => if key y < key x then x :: y :: ys else y :: insertByDesc key x ys

/-- Stable descending sort by key — the extensional behaviour of
Python's stable `sorted(..., key=lambda r: -key(r))`. -/
def stableSortDesc {α : Type} (key : α → ℚ) (l : List α) : List α :=
  l.foldl (fun acc x => insertByDesc key x acc) []

/-- `classify_domain`: per-domain keyword-substring counts over the
lowercased text, normalized by table size, positive scores only, sorted
descending, top 5. -/
def classify_domain (text : String) : List (String × ℚ) :=
  let text_lower := lowerStr text
  let scores := DOMAIN_KEYWORDS.foldl
    (fun acc p =>
      let count := (p.2.filter (fun kw => strContains text_lower (lowerStr kw))).length
      if count > 0 then acc ++ [(p.1, (count : ℚ) / (p.2.length : ℚ))] else acc)
    []
  (stableSortDesc (fun x => x.2) scores).take 5

/-- A merged search-result row as built by `KnowledgeBase.query` before
reranking (`final_score` is written by `_rerank`). -/
structure ResultRow where
  chunk_id : String
  content : String
  similarity : ℚ
  source : String
  title : String
  author : String
  domain : String
  source_type : String
  language : String
  reliability : ℚ
  final_score : ℚ
deriving DecidableEq, Repr

/-- `query_domains[0][0] if query_domains else ""`. -/
def queryPrimary (query : String) : String :=
  match classify_domain query with
  | [] => ""
  | d :: _ => d.1

/-- `KnowledgeBase._rerank`: re-score each row with
`0.50·similarity + 0.25·reliability + 0.15·domain_match +
0.10·source_bonus` and sort descending by the final score. -/
def rerank (query : String) (results : List ResultRow) : List ResultRow :=
  let query_primary := queryPrimary query
  let scored := results.map (fun r =>
    let sim := r.similarity
    let rel := r.reliability
    let domain_match : ℚ := if r.domain = query_primary then 1 else 0.3
    let source_bonus : ℚ := if r.source = "vector" then 1 else 0.7
    { r with final_score :=
        0.50 * sim + 0.25 * rel + 0.15 * domain_match + 0.10 * source_bonus })
  stableSortDesc (fun r => r.final_score) scored

theorem mem_insertByDesc {α : Type} (key : α → ℚ) (x a : α) :
    ∀ l : List α, a ∈ insertByDesc key x l → a = x ∨ a ∈ l := by
  intro l
  induction l with
  | nil => intro h; left; simpa [insertByDesc] using h
  | cons y ys ih =>
    unfold insertByDesc
    split
    · intro h
      rcases List.mem_cons.mp h with h | h
      · exact Or.inl h
      · exact Or.inr h
    · intro h
      rcases List.mem_cons.mp h with h | h
      · exact Or.inr (by simp [h])
      · rcases ih h with h | h
        · exact Or.inl h
        · exact Or.inr (List.mem_cons_of_mem y h)

theorem mem_stableSortDesc {α : Type} (key : α → ℚ) (l : List α) (a : α)
    (h : a ∈ stableSortDesc key l) : a ∈ l := by
  unfold stableSortDesc at h
  suffices hgen : ∀ (l' : List α) (acc : List α),
      a ∈ l'.foldl (fun acc x => insertByDesc key x acc) acc → a ∈ acc ∨ a ∈ l' by
    rcases hgen l [] h with h' | h'
    · simp at h'
    · exact h'
  intro l'
  induction l' with
  | nil => intro acc h'; exact Or.inl h'
  | cons y ys ih =>
    intro acc h'
    rcases ih (insertByDesc key y acc) h' with h'' | h''
    · rcases mem_insertByDesc key y a acc h'' with h3 | h3
      · exact Or.inr (by simp [h3])
      · exact Or.inl h3
    · exact Or.inr (List.mem_cons_of_mem y h'')

/-- The scenario-S5 query, classified as `fisica`. -/
def qS5 : String := "energia quantistica entropia"

/-- Scenario-S5 document A: domain matches the query, reliability 0.9,
vector similarity 0.7. -/
def rowS5A : ResultRow :=
  { chunk_id := "A", content := "", similarity := 0.70, source := "vector",
    title := "", author := "", domain := "fisica", source_type := "",
    language := "", reliability := 0.90, final_score := 0 }

/-- Scenario-S5 document B: mismatched domain, reliability 0.5, vector
similarity 0.9. -/
def rowS5B : ResultRow :=
  { chunk_id := "B", content := "", similarity := 0.90, source := "vector",
    title := "", author := "", domain := "medicina", source_type := "",
    language := "", reliability := 0.50, final_score := 0 }

unseal Rat.mul Rat.inv Rat.add Rat.sub Rat.ofScientific in
theorem classify_qS5 : classify_domain qS5 = [("fisica", 3 / 19)] := by decide

unseal Rat.mul Rat.inv Rat.add Rat.sub Rat.ofScientific in
theorem rerank_qS5_eval :
    rerank qS5 [rowS5A, rowS5B]
      = [{ rowS5A with final_score := 0.825 }, { rowS5B with final_score := 0.72 }] := by
  decide

/-- C4.  Every reranked row's `final_score` is exactly
`0.50·similarity + 0.25·reliability + 0.15·domain_match +
0.10·source_bonus` with `domain_match = 1` iff the row's domain equals
the query's top classified domain (else 0.3) and `source_bonus = 1` for
vector hits (else 0.7); in scenario S5, A scores 0.825, B scores 0.72,
and A ranks first. -/
theorem C4_hybrid_rerank_blend :
    (∀ (q : String) (rows : List ResultRow) (r : ResultRow), r ∈ rerank q rows →
      r.final_score = 0.50 * r.similarity + 0.25 * r.reliability
        + 0.15 * (if r.domain = queryPrimary q then (1 : ℚ) else 0.3)
        + 0.10 * (if r.source = "vector" then (1 : ℚ) else 0.7))
    ∧ (∀ (q : String) (d : String × ℚ) (rest : List (String × ℚ)),
        classify_domain q = d :: rest → queryPrimary q = d.1)
    ∧ ((rerank qS5 [rowS5A, rowS5B]).map (fun r => r.chunk_id) = ["A", "B"]
        ∧ (rerank qS5 [rowS5A, rowS5B]).map (fun r => r.final_score) = [0.825, 0.72]) := by
  refine ⟨?_, ?_, ?_⟩
  · intro q rows r hr
    unfold rerank at hr
    have hmem := mem_stableSortDesc _ _ _ hr
    rcases List.mem_map.mp hmem with ⟨r0, _, heq⟩
    subst heq
    rfl
  · intro q d rest h
    unfold queryPrimary
    rw [h]
  · constructor
    · show ((rerank qS5 [rowS5A, rowS5B]).map (fun r => r.chunk_id)) = ["A", "B"]
      have : rerank qS5 [rowS5A, rowS5B]
          = [{ rowS5A with final_score := 0.825 }, { rowS5B with final_score := 0.72 }] :=
        rerank_qS5_eval
      rw [this]
      rfl
    · have : rerank qS5 [rowS5A, rowS5B]
          = [{ rowS5A with final_score := 0.825 }, { rowS5B with final_score := 0.72 }] :=
        rerank_qS5_eval
      rw [this]
      rfl

/-- Witness for C4 at concrete inputs. -/
theorem C4_hybrid_rerank_blend_witness :
    (({ rowS5A with final_score := 0.825 } : ResultRow).final_score
      = 0.50 * ({ rowS5A with final_score := 0.825 } : ResultRow).similarity
        + 0.25 * ({ rowS5A with final_score := 0.825 } : ResultRow).reliability
        + 0.15 * (if ({ rowS5A with final_score := 0.825 } : ResultRow).domain
            = queryPrimary qS5 then (1 : ℚ) else 0.3)
        + 0.10 * (if ({ rowS5A with final_score := 0.825 } : ResultRow).source
            = "vector" then (1 : ℚ) else 0.7))
    ∧ queryPrimary qS5 = "fisica" :=
  have h := C4_hybrid_rerank_blend
  ⟨h.1 qS5 [rowS5A, rowS5B] { rowS5A with final_score := 0.825 }
    (by rw [rerank_qS5_eval]; exact List.mem_cons_self _ _),
   h.2.1 qS5 ("fisica", 3 / 19) [] classify_qS5⟩

/-! # Part 6 — Language detection (`preprocessing.py`)

`LanguageDetector.detect` lowercases and whitespace-splits the text,
computes per-language stop-word overlap counts, and returns "unknown"
when the maximum count is below 3, else the first maximum-scoring
language in table order (Python `max(scores, key=scores.get)`). -/

/-- `LanguageDetector.STOP_WORDS` (per-language stop-word sets; Python
sets are modelled as duplicate-free lists, the overlap count is
order-independent). -/
def STOP_WORDS : List (String × List String) := [
  ("it", ["di", "che", "è", "la", "il", "un", "per", "non", "sono", "da", "del", "con", "una", "in", "al", "dei", "le", "nel", "gli", "alla", "delle", "come", "più", "anche", "questo", "questa", "essere", "ha"]),
  ("en", ["the", "be", "to", "of", "and", "a", "in", "that", "have", "i", "it", "for", "not", "on", "with", "he", "as", "you", "do", "at", "this", "but", "his", "by", "from", "they", "we", "her", "she"]),
  ("fr", ["le", "de", "un", "être", "et", "en", "il", "que", "ne", "pas", "sur", "se", "qui", "ce", "dans", "du", "elle", "au", "avec", "pour"]),
  ("de", ["der", "die", "und", "in", "den", "von", "zu", "das", "mit", "sich", "des", "auf", "für", "ist", "im", "dem", "nicht", "ein", "eine", "als", "auch", "es", "an", "er", "hat", "aus", "sie"]),
  ("es", ["de", "la", "que", "el", "en", "y", "los", "se", "del", "las", "un", "por", "con", "no", "una", "su", "al", "lo", "como", "más"]),
  ("la", ["et", "in", "est", "non", "cum", "ad", "sed", "ut", "de", "quod", "qui", "ab", "ex", "per", "aut", "hoc", "enim", "quae", "esse"])
]
/-- Python `str.split()` with no separator: split on whitespace runs,
dropping empty fields (the accumulator carries the current word in
reverse). -/
def splitWsAux : List Char → List Char → List (List Char)
  | [], cur => if cur = [] then [] else [cur.reverse]
  | c :: rest, cur =>
    if c.isWhitespace then
      if cur = [] then splitWsAux rest [] else cur.reverse :: splitWsAux rest []
    else splitWsAux rest (c :: cur)

/-- Python `s.split()` on strings. -/
def pySplitWs (s : String) : List String :=
  (splitWsAux s.data []).map String.mk

/-- The per-language overlap scores of `LanguageDetector.detect`:
`len(words & stops)` where `words = set(text.lower().split())`. -/
def detectScores (text : String) : List (String × Nat) :=
  let words := pySplitWs (lowerStr text)
  STOP_WORDS.map (fun p => (p.1, (p.2.filter (fun w => words.contains w)).length))

/-- `max(scores.values())` (0 on the empty list, never reached:
`STOP_WORDS` is a non-empty constant). -/
def maxDetectScore (text : String) : Nat :=
  ((detectScores text).map (fun p => p.2)).foldl Nat.max 0

/-- `LanguageDetector.detect`: "unknown" iff the maximum per-language
stop-word overlap is below 3, else the first maximum-scoring language
(`max(scores, key=scores.get)` keeps the first maximum in insertion
order; the `none` fallback is unreachable since the maximum of a
non-empty score table is attained). -/
def LanguageDetector.detect (text : String) : String :=
  let scores := detectScores text
  if scores = [] ∨ maxDetectScore text < 3 then "unknown"
  else
    match scores.find? (fun p => p.2 = maxDetectScore text) with
    | some p => p.1
    | none => "unknown"

theorem foldl_max_attained : ∀ (l : List Nat) (a : Nat),
    l.foldl Nat.max a = a ∨ l.foldl Nat.max a ∈ l := by
  intro l
  induction l with
  | nil => intro a; exact Or.inl rfl
  | cons x t ih =>
    intro a
    simp only [List.foldl_cons]
    rcases ih (Nat.max a x) with h | h
    · rcases Nat.le_total a x with h' | h'
      · refine Or.inr ?_
        have hx : Nat.max a x = x := Nat.max_eq_right h'
        rw [h, hx]
        exact List.mem_cons_self x t
      · refine Or.inl ?_
        have hx : Nat.max a x = a := Nat.max_eq_left h'
        rw [h, hx]
    · exact Or.inr (List.mem_cons_of_mem x h)

/-- C8 (amended).  The detector returns "unknown" exactly when the
maximum per-language stop-word overlap is below 3 (scores are
non-negative counts, never negative, and the token-count plays no
role); otherwise it returns the first language attaining the maximum
overlap in table order. -/
theorem C8_detect_unknown_iff (text : String) :
    (LanguageDetector.detect text = "unknown" ↔ maxDetectScore text < 3)
    ∧ (3 ≤ maxDetectScore text →
        ∃ p ∈ detectScores text,
          LanguageDetector.detect text = p.1 ∧ p.2 = maxDetectScore text) := by
  have hscores : detectScores text ≠ [] := by
    unfold detectScores STOP_WORDS
    simp
  have hattain : 3 ≤ maxDetectScore text →
      ∃ p ∈ detectScores text, p.2 = maxDetectScore text := by
    intro h3
    rcases foldl_max_attained ((detectScores text).map (fun p => p.2)) 0 with h | h
    · exfalso
      unfold maxDetectScore at h3
      omega
    · rcases List.mem_map.mp h with ⟨p, hp, hval⟩
      exact ⟨p, hp, hval⟩
  constructor
  · constructor
    · intro hdet
      by_contra hlt
      push_neg at hlt
      rcases hattain hlt with ⟨p, hp, hval⟩
      have hfind : ((detectScores text).find? (fun q => q.2 = maxDetectScore text)).isSome := by
        rw [List.find?_isSome]
        exact ⟨p, hp, by simp [hval]⟩
      unfold LanguageDetector.detect at hdet
      rw [if_neg (by push_neg; exact ⟨hscores, by omega⟩)] at hdet
      rcases Option.isSome_iff_exists.mp hfind with ⟨q, hq⟩
      rw [hq] at hdet
      -- the found language name would have to be the literal "unknown";
      -- no language key of STOP_WORDS is "unknown"
      have hqin := List.mem_of_find?_eq_some hq
      have hq1 : q.1 ≠ "unknown" := by
        unfold detectScores at hqin
        rcases List.mem_map.mp hqin with ⟨entry, hentry, hqe⟩
        rw [← hqe]
        show entry.1 ≠ "unknown"
        simp only [STOP_WORDS, List.mem_cons, List.not_mem_nil, or_false] at hentry
        rcases hentry with rfl | rfl | rfl | rfl | rfl | rfl <;> decide
      exact hq1 hdet
    · intro hlt
      unfold LanguageDetector.detect
      rw [if_pos (Or.inr hlt)]
  · intro h3
    rcases hattain h3 with ⟨p, hp, hval⟩
    have hfind : ((detectScores text).find? (fun q => q.2 = maxDetectScore text)).isSome := by
      rw [List.find?_isSome]
      exact ⟨p, hp, by simp [hval]⟩
    rcases Option.isSome_iff_exists.mp hfind with ⟨q, hq⟩
    refine ⟨q, List.mem_of_find?_eq_some hq, ?_, ?_⟩
    · unfold LanguageDetector.detect
      rw [if_neg (by push_neg; exact ⟨hscores, by omega⟩), hq]
    · have := List.find?_some hq
      simpa using this

/-- Witness for C8 at a concrete input: "the of and" has three tokens,
all English stop words, so the English overlap score is 3 and the
detector returns "en" rather than "unknown". -/
theorem C8_detect_unknown_iff_witness :
    (LanguageDetector.detect "the of and" = "unknown" ↔ maxDetectScore "the of and" < 3)
    ∧ (∃ p ∈ detectScores "the of and",
        LanguageDetector.detect "the of and" = p.1
        ∧ p.2 = maxDetectScore "the of and") :=
  have h := C8_detect_unknown_iff "the of and"
  ⟨h.1, h.2 (by decide)⟩

/-- C8 counterexample.  "the of and" has only 3 tokens (< 5) yet the
detector returns "en", and "alpha beta gamma delta epsilon" has 5
tokens with every (non-negative) score zero yet the detector returns
"unknown": the claimed "fewer than 5 tokens or all scores negative"
characterization is wrong on both sides. -/
theorem C8_detect_counterexample :
    (LanguageDetector.detect "the of and" = "en"
      ∧ (pySplitWs (lowerStr "the of and")).length = 3
      ∧ "en" ≠ "unknown")
    ∧ (LanguageDetector.detect "alpha beta gamma delta epsilon" = "unknown"
      ∧ (pySplitWs (lowerStr "alpha beta gamma delta epsilon")).length = 5
      ∧ ∀ p ∈ detectScores "alpha beta gamma delta epsilon", p.2 = 0) := by
  constructor
  · exact ⟨by decide, by decide, by decide⟩
  · exact ⟨by decide, by decide, by decide⟩

/-! # Part 7 — Pipeline DAG (`distributed_engine.py`)

`Pipeline.add_stage` stores the stage in the `_stages` dict and then
recomputes `_order = _topological_sort()`.  The sort is a DFS over a
`visited` set with **no cycle detection**: revisiting a node simply
returns, so no error is ever raised and a cyclic dependency is silently
arranged in DFS postorder.  The stage's callable is abstracted as a
type parameter. -/

/-- `PipelineStage` of `distributed_engine.py` (the callable `fn` is a
type parameter). -/
structure PipelineStage (F : Type) where
  name : String
  fn : F
  depends_on : List String
  pool_type : String
  max_workers : Nat
  batch_size : Nat
  retry_count : Nat

/-- The `Pipeline` state: the insertion-ordered `_stages` dict
(modelled as an association list) and the cached `_order`. -/
structure Pipeline (F : Type) where
  stages : List (String × PipelineStage F)
  order : List String

/-- Python dict assignment `d[k] = v`: overwrite in place if the key
exists, else append. -/
def dictInsert {α : Type} (d : List (String × α)) (k : String) (v : α) :
    List (String × α) :=
  if d.any (fun p => p.1 = k) then
    d.map (fun p => if p.1 = k then (k, v) else p)
  else d ++ [(k, v)]

/-- The recursive `visit` of `Pipeline._topological_sort`: skip visited
nodes, mark, recurse into the dependencies that name known stages,
append in postorder.  Python's recursion terminates because `visited`
grows; here the same recursion carries fuel, and `stages.length + 1`
fuel is never exhausted (each nested call visits an unvisited node). -/
def topoVisit {F : Type} (stages : List (String × PipelineStage F)) :
    Nat → List String × List String → String → List String × List String
  | 0, vo, _ => vo
  | fuel + 1, (visited, order), name =>
    if name ∈ visited then (visited, order)
    else
      let visited := name :: visited
      match stages.find? (fun p => p.1 = name) with
      | none => (visited, order)
      | some p =>
        let deps := p.2.depends_on.filter (fun d => stages.any (fun q => q.1 = d))
        let vo := deps.foldl (fun vo d => topoVisit stages fuel vo d) (visited, order)
        (vo.1, vo.2 ++ [name])

/-- `Pipeline._topological_sort`: DFS postorder over every stage in
dict order; cycles are traversed silently, never reported. -/
def topologicalSort {F : Type} (stages : List (String × PipelineStage F)) :
    List String :=
  (stages.foldl (fun vo p => topoVisit stages (stages.length + 1) vo p.1) ([], [])).2

/-- `Pipeline.add_stage`: register the stage, recompute the order,
return the pipeline (no validation, no failure path). -/
def Pipeline.add_stage {F : Type} (p : Pipeline F) (name : String) (fn : F)
    (depends_on : List String) (pool_type : String) (max_workers batch_size retry_count : Nat) :
    Pipeline F :=
  let stage : PipelineStage F :=
    { name := name, fn := fn, depends_on := depends_on, pool_type := pool_type,
      max_workers := max_workers, batch_size := batch_size, retry_count := retry_count }
  let stages := dictInsert p.stages name stage
  { stages := stages, order := topologicalSort stages }

/-- `Pipeline()`. -/
def Pipeline.empty (F : Type) : Pipeline F :=
  { stages := [], order := [] }

theorem dictInsert_key_present {α : Type} (d : List (String × α)) (k : String) (v : α) :
    (dictInsert d k v).any (fun p => p.1 = k) = true := by
  unfold dictInsert
  split
  · rename_i h
    rw [List.any_eq_true] at h ⊢
    rcases h with ⟨p, hp, hk⟩
    have hk' : p.1 = k := by simpa using hk
    refine ⟨(k, v), List.mem_map.mpr ⟨p, hp, by rw [if_pos hk']⟩, by simp⟩
  · rw [List.any_append]
    simp

/-- C9 (amended).  `add_stage` never fails: it registers the stage and
recomputes a DFS postorder even when the new `depends_on` edges close a
cycle — `_topological_sort` has no cycle check.  Concretely, adding
`a → b` and then `b → a` raises nothing, leaves both stages registered,
and produces the order `["b", "a"]`. -/
theorem C9_add_stage_never_fails :
    (∀ (F : Type) (p : Pipeline F) (name : String) (fn : F) (deps : List String)
        (pt : String) (mw bs rc : Nat),
      ((p.add_stage name fn deps pt mw bs rc).stages.any (fun q => q.1 = name)) = true)
    ∧ (((Pipeline.empty Unit).add_stage "a" () ["b"] "process" 0 100 2
          |>.add_stage "b" () ["a"] "process" 0 100 2).stages.map (fun q => q.1)
        = ["a", "b"]
      ∧ ((Pipeline.empty Unit).add_stage "a" () ["b"] "process" 0 100 2
          |>.add_stage "b" () ["a"] "process" 0 100 2).order = ["b", "a"]) := by
  refine ⟨?_, by decide, by decide⟩
  intro F p name fn deps pt mw bs rc
  exact dictInsert_key_present p.stages name _

/-- C9 counterexample.  The `add_stage` call that closes the `a ↔ b`
cycle does not fail eagerly: the stage is registered (both stages are
in the dict) and the topological sort returns an order containing both,
instead of raising. -/
theorem C9_cycle_counterexample :
    (((Pipeline.empty Unit).add_stage "a" () ["b"] "process" 0 100 2
        |>.add_stage "b" () ["a"] "process" 0 100 2).stages.map (fun q => q.1)
      = ["a", "b"])
    ∧ (((Pipeline.empty Unit).add_stage "a" () ["b"] "process" 0 100 2
        |>.add_stage "b" () ["a"] "process" 0 100 2).order = ["b", "a"]) := by
  constructor
  · decide
  · decide

/-! # Part 8 — Local pool `map` (`distributed_engine.py`)

`LocalProcessPool.map` and `LocalThreadPool.map` fill a result slot per
item (`results = [None] * len(items)`), writing `fn(item)` on success
and leaving `None` for items that exhaust their retries, then return
`[r for r in results if r is not None]`.  The eventual outcome of each
item is abstracted as `outcome : α → Option (Option β)`:
`Option.none` means every attempt raised (the slot stays `None`),
`some r` means some attempt returned `r : Option β` — where `r` itself
may be Python `None`, which is indistinguishable from a failure slot in
the final filter.  Scheduling order is irrelevant: each slot is written
by index. -/

/-- The final value of the slot `results[idx]` for one item. -/
def poolSlot {α β : Type} (outcome : α → Option (Option β)) (x : α) : Option β :=
  match outcome x with
  | Option.none => Option.none
  | some r => r

/-- `LocalProcessPool.map`: index-addressed slots filtered to the
non-`None` entries. -/
def LocalProcessPool.map {α β : Type} (outcome : α → Option (Option β))
    (items : List α) : List β :=
  if items.isEmpty then []
  else (items.map (poolSlot outcome)).reduceOption

/-- `LocalThreadPool.map`: identical result semantics. -/
def LocalThreadPool.map {α β : Type} (outcome : α → Option (Option β))
    (items : List α) : List β :=
  if items.isEmpty then []
  else (items.map (poolSlot outcome)).reduceOption

theorem reduceOption_length_countP {β : Type} (l : List (Option β)) :
    l.reduceOption.length = l.countP (fun o => o.isSome) := by
  induction l with
  | nil => rfl
  | cons o t ih =>
    cases o with
    | none => simpa [List.reduceOption_cons_of_none, List.countP_cons] using ih
    | some b => simpa [List.reduceOption_cons_of_some, List.countP_cons] using ih

theorem countP_lt_length_of_exists {α : Type} (l : List α) (p : α → Bool)
    (h : ∃ x ∈ l, p x = false) : l.countP p < l.length := by
  rcases h with ⟨x, hx, hpx⟩
  induction l with
  | nil => simp at hx
  | cons y t ih =>
    rw [List.countP_cons, List.length_cons]
    rcases List.mem_cons.mp hx with h | h
    · subst h
      rw [hpx]
      simp only [Bool.false_eq_true, if_false]
      have := List.countP_le_length (l := t) (p := p)
      omega
    · have := ih h
      split <;> omega

/-- C10.  Both pool `map`s return the slot list filtered to non-`None`
entries, so an item whose call succeeds but returns `None` is silently
omitted: when no task failed, the output length is the number of items
whose returned value is not `None`, and it is strictly shorter than the
input whenever some successful item returned `None`. -/
theorem C10_pool_map_filters_none {α β : Type} (outcome : α → Option (Option β))
    (items : List α) :
    (LocalProcessPool.map outcome items = (items.map (poolSlot outcome)).reduceOption
      ∧ LocalThreadPool.map outcome items = (items.map (poolSlot outcome)).reduceOption)
    ∧ (LocalProcessPool.map outcome items).length
        = items.countP (fun x => (poolSlot outcome x).isSome)
    ∧ ((∀ x ∈ items, (outcome x).isSome) →
        (∃ x ∈ items, outcome x = some Option.none) →
        (LocalProcessPool.map outcome items).length < items.length
        ∧ (LocalThreadPool.map outcome items).length < items.length) := by
  have hmaps : LocalProcessPool.map outcome items
      = (items.map (poolSlot outcome)).reduceOption := by
    unfold LocalProcessPool.map
    split
    · rename_i h
      rw [List.isEmpty_iff.mp h]
      rfl
    · rfl
  have hmaps' : LocalThreadPool.map outcome items
      = (items.map (poolSlot outcome)).reduceOption := by
    unfold LocalThreadPool.map
    split
    · rename_i h
      rw [List.isEmpty_iff.mp h]
      rfl
    · rfl
  have hlen : (LocalProcessPool.map outcome items).length
      = items.countP (fun x => (poolSlot outcome x).isSome) := by
    rw [hmaps, reduceOption_length_countP, List.countP_map]
    rfl
  refine ⟨⟨hmaps, hmaps'⟩, hlen, ?_⟩
  intro _ hnone
  have hshort : items.countP (fun x => (poolSlot outcome x).isSome) < items.length := by
    apply countP_lt_length_of_exists
    rcases hnone with ⟨x, hx, hox⟩
    refine ⟨x, hx, ?_⟩
    unfold poolSlot
    rw [hox]
    rfl
  constructor
  · rw [hlen]
    exact hshort
  · rw [hmaps', ← hmaps, hlen]
    exact hshort

/-- Witness for C10: two items, both succeed, the second returns
`None`; the output holds one element. -/
theorem C10_pool_map_filters_none_witness :
    (LocalProcessPool.map
        (fun n : Nat => if n = 0 then some (some 5) else some Option.none) [0, 1]).length
      = ([0, 1] : List Nat).countP
          (fun x => (poolSlot (fun n : Nat =>
            if n = 0 then some (some 5) else some Option.none) x).isSome)
    ∧ (LocalProcessPool.map
        (fun n : Nat => if n = 0 then some (some 5) else some Option.none) [0, 1]).length
      < ([0, 1] : List Nat).length :=
  have h := C10_pool_map_filters_none
    (fun n : Nat => if n = 0 then some (some 5) else some Option.none) [0, 1]
  ⟨h.2.1,
   (h.2.2 (by intro x hx; rcases List.mem_cons.mp hx with rfl | hx' <;> simp_all)
     ⟨1, by simp, by simp⟩).1⟩

/-! # Part 9 — Semantic chunker (`preprocessing.py`)

`SemanticChunker.chunk` splits on blank lines (`text.split("\n\n")`),
strips and drops empty paragraphs, and folds over them: a paragraph
recognized as a section title (by four regex patterns) flushes the
current chunk and opens a new section; a paragraph that would push the
current chunk past `max_tokens * 4` characters flushes it and seeds the
next chunk with the last `overlap_tokens * 4` characters; the last
chunk is flushed unconditionally.  The regex matchers are embedded as
character-list functions (they agree with `re` semantics on the
stripped, newline-aware inputs `_detect_section` receives). -/

/-- Python `s.strip()` on character lists. -/
def trimCh (l : List Char) : List Char :=
  ((l.dropWhile Char.isWhitespace).reverse.dropWhile Char.isWhitespace).reverse

/-- Python `text.split("\n\n")`: split on each non-overlapping
occurrence of two newlines, left to right. -/
def splitNN : List Char → List (List Char)
  | [] => [[]]
  | '\n' :: '\n' :: rest => [] :: splitNN rest
  | c :: rest =>
    match splitNN rest with
    | [] => [[c]]
    | h :: t => (c :: h) :: t

/-- Python `l[-n:]` for `n > 0`: the last `n` characters (the whole
list when shorter). -/
def takeLast (n : Nat) (l : List Char) : List Char :=
  l.drop (l.length - n)

def isUpperAZ (c : Char) : Bool :=
  'A' ≤ c && c ≤ 'Z'

/-- `^#{1,6}\s+(.+)$` under `re.match` with MULTILINE: one to six
leading `#`, at least one whitespace, then the (greedy, non-empty)
group up to the end of line. -/
def matchMarkdown (cs : List Char) : Option (List Char) :=
  let n := (cs.takeWhile (fun c => c = '#')).length
  if 1 ≤ n ∧ n ≤ 6 then
    match cs.drop n with
    | [] => none
    | c :: rest =>
      if c.isWhitespace then
        let grp := ((c :: rest).dropWhile Char.isWhitespace).takeWhile (fun d => d ≠ '\n')
        if grp.isEmpty then none else some grp
      else none
  else none

/-- `[\dIVXLCDM]` under IGNORECASE. -/
def romanDigit (c : Char) : Bool :=
  c.isDigit || ['I', 'V', 'X', 'L', 'C', 'D', 'M'].contains c.toUpper

/-- `^(?:CAPITOLO|CHAPTER|SEZIONE|SECTION)\s+[\dIVXLCDM]+[.:]\s*(.+)$`
under `re.match` with IGNORECASE (no keyword is a prefix of another,
so at most one alternative can match). -/
def matchChapter (cs : List Char) : Option (List Char) :=
  match ["CAPITOLO", "CHAPTER", "SEZIONE", "SECTION"].find?
      (fun k => (cs.take k.length).map Char.toUpper = k.data) with
  | none => none
  | some k =>
    let rest := cs.drop k.length
    match rest with
    | [] => none
    | c :: _ =>
      if c.isWhitespace then
        let r1 := rest.dropWhile Char.isWhitespace
        let run := r1.takeWhile romanDigit
        if run.isEmpty then none
        else
          match r1.drop run.length with
          | [] => none
          | p :: r3 =>
            if p = '.' ∨ p = ':' then
              let grp := (r3.dropWhile Char.isWhitespace).takeWhile (fun d => d ≠ '\n')
              if grp.isEmpty then none else some grp
            else none
      else none

/-- The `(?:\.\d+)*` tail of the numbered-section pattern: greedily
consume `.` followed by at least one digit. -/
def numChain : List Char → List Char
  | '.' :: rest =>
    let ds := rest.takeWhile Char.isDigit
    if ds.isEmpty then [] else ('.' :: ds) ++ numChain (rest.drop ds.length)
  | _ => []
termination_by l => l.length
decreasing_by
  simp only [List.length_drop, List.length_cons]
  omega

/-- `^(\d+(?:\.\d+)*)\s+([A-Z].+)$` under `re.match`; the code returns
`match.group(1)`, which for this pattern is the *number chain*, not the
title. -/
def matchNumbered (cs : List Char) : Option (List Char) :=
  let d1 := cs.takeWhile Char.isDigit
  if d1.isEmpty then none
  else
    let number := d1 ++ numChain (cs.drop d1.length)
    match cs.drop number.length with
    | [] => none
    | c :: rest =>
      if c.isWhitespace then
        match (c :: rest).dropWhile Char.isWhitespace with
        | [] => none
        | u :: tl =>
          if isUpperAZ u then
            let grp2 := tl.takeWhile (fun d => d ≠ '\n')
            if grp2.isEmpty then none else some number
          else none
      else none

def capsClass (c : Char) : Bool :=
  isUpperAZ c || c.isWhitespace

/-- `^([A-Z][A-Z\s]{5,})$` under `re.match` with MULTILINE: an
upper-case letter followed by at least five characters of the class;
`$` forces the greedy class run to end at the end of the string, or to
backtrack to the position before the last `\n` inside the run. -/
def matchAllCaps (cs : List Char) : Option (List Char) :=
  match cs with
  | [] => none
  | c :: rest =>
    if isUpperAZ c then
      let run := rest.takeWhile capsClass
      let after := rest.drop run.length
      let k :=
        if after.isEmpty then
          if 5 ≤ run.length then some run.length else none
        else
          ((List.range run.length).filter
            (fun j => 5 ≤ j && run.getD j ' ' = '\n')).max?
      match k with
      | some j => some (c :: run.take j)
      | none => none
    else none

/-- `SemanticChunker._detect_section`: strip, reject long paragraphs,
try the four patterns in order and return the first group. -/
def detect_section (s : String) : Option String :=
  let t := trimCh s.data
  if t.length > 200 then none
  else
    match matchMarkdown t with
    | some g => some (String.mk g)
    | none =>
      match matchChapter t with
      | some g => some (String.mk g)
      | none =>
        match matchNumbered t with
        | some g => some (String.mk g)
        | none =>
          match matchAllCaps t with
          | some g => some (String.mk g)
          | none => none

/-- The chunk dict built by `SemanticChunker._make_chunk`. -/
structure RawChunk where
  content : String
  start_char : Nat
  end_char : Nat
  section_title : String
  tokens_approx : Nat
  word_count : Nat
  char_count : Nat
deriving DecidableEq, Repr

/-- `SemanticChunker._make_chunk` (token estimate `len(content)//4`,
word count by whitespace split). -/
def makeChunk (content : List Char) (s e : Nat) (sec : String) : RawChunk :=
  { content := String.mk content, start_char := s, end_char := e,
    section_title := sec, tokens_approx := content.length / 4,
    word_count := (splitWsAux content []).length, char_count := content.length }

/-- The loop state of `SemanticChunker.chunk`. -/
structure ChunkState where
  chunks : List RawChunk
  current_chunk : List Char
  current_section : String
  chunk_start : Nat
  char_pos : Nat
deriving DecidableEq, Repr

/-- The section-title block of the loop body: on a detected section
(with `respect_sections`), flush a non-empty current chunk, reset it
and record the new section. -/
def sectionPhase (respect : Bool) (st : ChunkState) (para : List Char) : ChunkState :=
  match detect_section (String.mk para) with
  | some sec =>
    if respect then
      let st1 :=
        if trimCh st.current_chunk ≠ [] then
          { st with chunks := st.chunks
              ++ [makeChunk (trimCh st.current_chunk) st.chunk_start st.char_pos
                    st.current_section] }
        else st
      { st1 with
          current_section := sec
          current_chunk := []
          chunk_start := st1.char_pos }
    else st
  | none => st

/-- The size-limit block of the loop body: flush when adding the
paragraph would exceed the limit (and the current chunk is non-blank),
seeding the next chunk with the overlap tail; otherwise append the
paragraph (with a blank-line separator when the chunk is non-empty).
`chunk_start = max(0, char_pos - overlap_chars)` as in the source. -/
def growPhase (maxChars overlapChars : Nat) (st : ChunkState) (para : List Char) :
    ChunkState :=
  if st.current_chunk.length + para.length + 2 > maxChars
      ∧ trimCh st.current_chunk ≠ [] then
    let st1 := { st with chunks := st.chunks
        ++ [makeChunk (trimCh st.current_chunk) st.chunk_start st.char_pos
              st.current_section] }
    let st2 :=
      if overlapChars > 0 then
        { st1 with current_chunk :=
            takeLast overlapChars st.current_chunk ++ '\n' :: '\n' :: para }
      else
        { st1 with current_chunk := para }
    { st2 with chunk_start := Nat.max 0 (st.char_pos - overlapChars) }
  else
    { st with current_chunk := st.current_chunk
        ++ (if st.current_chunk ≠ [] then '\n' :: '\n' :: para else para) }

/-- One iteration of `for para in paragraphs` (the position advances by
`len(para) + 2` after both blocks). -/
def chunkStep (maxChars overlapChars : Nat) (respect : Bool) (st : ChunkState)
    (para : List Char) : ChunkState :=
  let st1 := sectionPhase respect st para
  let st2 := growPhase maxChars overlapChars st1 para
  { st2 with char_pos := st2.char_pos + para.length + 2 }

/-- `SemanticChunker.chunk`. -/
def SemanticChunker.chunk (text : String) (max_tokens overlap_tokens : Nat)
    (respect_sections : Bool) : List RawChunk :=
  if text.data = [] then []
  else
    let max_chars := max_tokens * 4
    let overlap_chars := overlap_tokens * 4
    let paragraphs := ((splitNN text.data).map trimCh).filter (fun p => !p.isEmpty)
    let st := paragraphs.foldl (chunkStep max_chars overlap_chars respect_sections)
      ⟨[], [], "", 0, 0⟩
    if trimCh st.current_chunk ≠ [] then
      st.chunks ++ [makeChunk (trimCh st.current_chunk) st.chunk_start st.char_pos
          st.current_section]
    else st.chunks

/-- The scenario-S3 input: a `# Introduction` header at offset 0
followed by a 6000-character paragraph. -/
def textS3 : String :=
  "# Introduction\n\n" ++ String.mk (List.replicate 6000 'a')

theorem splitNN_no_nl : ∀ l : List Char, (∀ c ∈ l, c ≠ '\n') → splitNN l = [l] := by
  intro l
  induction l with
  | nil => intro _; rfl
  | cons c rest ih =>
    intro h
    have hc : c ≠ '\n' := h c (List.mem_cons_self c rest)
    have hr := ih (fun x hx => h x (List.mem_cons_of_mem c hx))
    rw [splitNN.eq_def]
    split
    · rename_i heq
      simp at heq
    · rename_i heq
      rw [List.cons.injEq] at heq
      exact absurd heq.1 hc
    · rename_i c' rest' _ heq
      rw [List.cons.injEq] at heq
      rw [← heq.1, ← heq.2, hr]

theorem splitNN_sep (l2 : List Char) : ∀ l1 : List Char, (∀ c ∈ l1, c ≠ '\n') →
    splitNN (l1 ++ '\n' :: '\n' :: l2) = l1 :: splitNN l2 := by
  intro l1
  induction l1 with
  | nil => intro _; rfl
  | cons c t ih =>
    intro h
    have hc : c ≠ '\n' := h c (List.mem_cons_self c t)
    have ht := ih (fun x hx => h x (List.mem_cons_of_mem c hx))
    rw [List.cons_append, splitNN.eq_def]
    split
    · rename_i heq
      simp at heq
    · rename_i heq
      rw [List.cons.injEq] at heq
      exact absurd heq.1 hc
    · rename_i c' rest' _ heq
      rw [List.cons.injEq] at heq
      rw [← heq.1, ← heq.2, ht]

theorem dropWhile_cons_false {p : Char → Bool} {a : Char} (h : p a = false)
    (l : List Char) : List.dropWhile p (a :: l) = a :: l := by
  simp [List.dropWhile_cons, h]

theorem trimCh_replicate (n : Nat) : trimCh (List.replicate n 'a') = List.replicate n 'a' := by
  cases n with
  | zero => rfl
  | succ m =>
    unfold trimCh
    rw [List.replicate_succ, dropWhile_cons_false (by decide), ← List.replicate_succ,
      List.reverse_replicate, List.replicate_succ, dropWhile_cons_false (by decide),
      ← List.replicate_succ, List.reverse_replicate]

/-- The second chunk's content in scenario S3: the 256-character
overlap window (the whole 14-character first chunk), the paragraph
separator, and the long paragraph. -/
def curS3 : List Char :=
  "# Introduction".data ++ '\n' :: '\n' :: List.replicate 6000 'a'

theorem curS3_reverse : curS3.reverse
    = 'a' :: (List.replicate 5999 'a' ++ ('\n' :: '\n' :: "# Introduction".data.reverse)) := by
  show ("# Introduction".data ++ '\n' :: '\n' :: List.replicate 6000 'a').reverse = _
  rw [show ('\n' :: '\n' :: List.replicate 6000 'a')
      = ['\n', '\n'] ++ List.replicate 6000 'a' from rfl]
  rw [List.reverse_append, List.reverse_append, List.reverse_replicate]
  rw [show List.replicate 6000 'a' = 'a' :: List.replicate 5999 'a' from rfl]
  rw [show (['\n', '\n'] : List Char).reverse = ['\n', '\n'] from rfl]
  simp only [List.cons_append, List.append_assoc, List.nil_append]

theorem trim_curS3 : trimCh curS3 = curS3 := by
  unfold trimCh
  have h1 : List.dropWhile Char.isWhitespace curS3 = curS3 := by
    rw [show curS3 = '#' :: (" Introduction".data ++ '\n' :: '\n' :: List.replicate 6000 'a')
      from rfl]
    exact dropWhile_cons_false (by decide) _
  rw [h1, curS3_reverse, dropWhile_cons_false (by decide), ← curS3_reverse,
    List.reverse_reverse]


theorem detect_section_replicate :
    detect_section (String.mk (List.replicate 6000 'a')) = none := by
  have ht : trimCh (String.mk (List.replicate 6000 'a')).data
      = List.replicate 6000 'a' := trimCh_replicate 6000
  unfold detect_section
  rw [ht, if_pos (by rw [List.length_replicate]; omega)]

theorem chunkStep_S3_first :
    chunkStep 2048 256 true ⟨[], [], "", 0, 0⟩ ("# Introduction".data)
      = ⟨[], "# Introduction".data, "Introduction", 0, 16⟩ := by
  decide

theorem sectionPhase_none (r : Bool) (st : ChunkState) (para : List Char)
    (hdet : detect_section (String.mk para) = none) :
    sectionPhase r st para = st := by
  unfold sectionPhase
  rw [hdet]

/-- A loop iteration in which the paragraph has no section header, the
size limit is exceeded and the overlap is positive: the current chunk
is flushed and the next one is seeded with the overlap tail. -/
theorem chunkStep_flush (maxChars overlapChars : Nat) (st : ChunkState)
    (para : List Char)
    (hdet : detect_section (String.mk para) = none)
    (hover : st.current_chunk.length + para.length + 2 > maxChars)
    (htrim : trimCh st.current_chunk ≠ [])
    (hoc : overlapChars > 0) :
    chunkStep maxChars overlapChars true st para
      = ⟨st.chunks ++ [makeChunk (trimCh st.current_chunk) st.chunk_start
            st.char_pos st.current_section],
         takeLast overlapChars st.current_chunk ++ '\n' :: '\n' :: para,
         st.current_section,
         Nat.max 0 (st.char_pos - overlapChars),
         st.char_pos + para.length + 2⟩ := by
  unfold chunkStep
  rw [sectionPhase_none true st para hdet]
  unfold growPhase
  dsimp only
  rw [if_pos ⟨hover, htrim⟩, if_pos hoc]

theorem chunkStep_S3_second :
    chunkStep 2048 256 true ⟨[], "# Introduction".data, "Introduction", 0, 16⟩
        (List.replicate 6000 'a')
      = ⟨[makeChunk ("# Introduction".data) 0 16 "Introduction"], curS3,
         "Introduction", 0, 6018⟩ := by
  rw [chunkStep_flush 2048 256 ⟨[], "# Introduction".data, "Introduction", 0, 16⟩
      (List.replicate 6000 'a') detect_section_replicate
      (by rw [List.length_replicate]; decide) (by decide) (by decide)]
  rw [show trimCh ("# Introduction".data) = "# Introduction".data from by decide,
      show takeLast 256 ("# Introduction".data) = "# Introduction".data from by decide,
      List.length_replicate, List.nil_append]
  rfl

theorem isPrefixCh_append : ∀ (l m : List Char), isPrefixCh l (l ++ m) = true := by
  intro l m
  induction l with
  | nil => rfl
  | cons a as ih => simp [isPrefixCh, ih]

/-- Full evaluation of `SemanticChunker.chunk` on the scenario-S3 text
with `max_tokens = 512`, `overlap_tokens = 64`: two chunks, the header
alone and then the overlap-seeded oversized paragraph. -/
theorem chunk_textS3_eval :
    SemanticChunker.chunk textS3 512 64 true
      = [makeChunk ("# Introduction".data) 0 16 "Introduction",
         makeChunk curS3 0 6018 "Introduction"] := by
  have hdata : textS3.data
      = "# Introduction".data ++ '\n' :: '\n' :: List.replicate 6000 'a' := rfl
  have hne : textS3.data ≠ [] := by
    rw [show textS3.data
        = '#' :: (" Introduction".data ++ '\n' :: '\n' :: List.replicate 6000 'a')
      from rfl]
    exact List.cons_ne_nil _ _
  have hcur : curS3 ≠ [] := by
    rw [show curS3
        = '#' :: (" Introduction".data ++ '\n' :: '\n' :: List.replicate 6000 'a')
      from rfl]
    exact List.cons_ne_nil _ _
  unfold SemanticChunker.chunk
  dsimp only
  rw [if_neg hne]
  rw [show (512 * 4 : Nat) = 2048 from rfl, show (64 * 4 : Nat) = 256 from rfl]
  rw [hdata,
    splitNN_sep (List.replicate 6000 'a') ("# Introduction".data) (by decide),
    splitNN_no_nl (List.replicate 6000 'a')
      (fun c hc => by rw [List.eq_of_mem_replicate hc]; decide)]
  rw [List.map_cons, List.map_cons, List.map_nil,
    show trimCh ("# Introduction".data) = "# Introduction".data from by decide,
    trimCh_replicate]
  rw [List.filter_cons_of_pos (by decide),
    List.filter_cons_of_pos
      (by rw [show List.replicate 6000 'a' = 'a' :: List.replicate 5999 'a' from rfl]
          rfl),
    List.filter_nil]
  rw [List.foldl_cons, chunkStep_S3_first, List.foldl_cons, chunkStep_S3_second,
    List.foldl_nil]
  dsimp only
  rw [trim_curS3, if_pos hcur]
  rfl

/-- C5: on the scenario-S3 input (a `# Introduction` header at offset 0
followed by a 6000-character paragraph, `max_tokens = 512`,
`overlap_tokens = 64`) the chunker produces at least two chunks, the
first chunk's `section_title` is `"Introduction"`, and each later chunk
begins with the last `64 * 4 = 256` characters of its predecessor. -/
theorem C5_chunker_scenario :
    2 ≤ (SemanticChunker.chunk textS3 512 64 true).length
    ∧ ((SemanticChunker.chunk textS3 512 64 true).head?).map RawChunk.section_title
        = some "Introduction"
    ∧ ((SemanticChunker.chunk textS3 512 64 true).zip
          (SemanticChunker.chunk textS3 512 64 true).tail).all
        (fun p => isPrefixCh (takeLast 256 p.1.content.data) p.2.content.data)
        = true := by
  rw [chunk_textS3_eval]
  refine ⟨by decide, rfl, ?_⟩
  show (isPrefixCh (takeLast 256 ("# Introduction".data)) curS3 && true) = true
  rw [show takeLast 256 ("# Introduction".data) = "# Introduction".data from by decide,
    show curS3 = "# Introduction".data ++ '\n' :: '\n' :: List.replicate 6000 'a'
      from rfl,
    isPrefixCh_append, Bool.and_self]
